import Mathlib

/-!
# edge-node-manager: the reconciliation pass of one application

Shallow embedding of `application/application.go` (`Application.Process`,
`loadDevices`, `updateDevices`, `createDevice`) and of
`proxyvisor/proxyvisor.go` (`handleResp`).

Conventions of the embedding

* A Go `error` is `Option Err`: `none` is `nil`, `some e` a non-nil error. A
  Go pair `(v, err)` whose value is only used when `err == nil` is an
  `Except Err _`.
* Go strings and byte slices are both immutable byte sequences here; they are
  modelled uniformly as `String`, so that `string(b)` is the identity.
* The collaborators behind interfaces (`database.Interface`,
  `radio.Interface`), the backend call `proxyvisor.Provision`, the clock
  `time.Now` and the JSON codec are fields of `Env`. Every stateful
  collaborator receives the history of the calls made so far in the pass, so
  it may answer differently each time it is called.
* The pass is state passing over a `Trace`: the chronological list of the
  collaborator calls made, each with the result it returned.
* `log.Printf` output is not modelled. `log.Fatal` ends the process
  (`Outcome.fatal`); a run-time panic is `Outcome.panicked`.
* A Go map is a key-unique association list, `none` being the nil map. The
  order of a `range` over a map is chosen by `Env.rangeOrder`.
-/

namespace EdgeNodeManager

/-- A non-nil Go error, by its message. -/
abbrev Err := String

/-- Byte slices. -/
abbrev Bytes := String

/-- Instants returned by the clock. -/
abbrev Time := Nat

deriving instance DecidableEq for Except

/-! ## proxyvisor.handleResp -/

/-- The two fields of an HTTP response that `handleResp` reads. -/
structure Response where
  StatusCode : Int
  Status : String
deriving DecidableEq, Repr

/-- How a Go function call ends: it returns a value, the process is ended by
`log.Fatal`, or the goroutine panics. -/
inductive Outcome (α : Type) where
  | ok (a : α)
  | fatal
  | panicked
deriving DecidableEq, Repr

/-- Embedding of `handleResp(resp gorequest.Response, errs []error) []error`.
`gorequest.Response` is a pointer, `none` is the nil pointer; a slice of
errors is `none` when nil. Reading a field through the nil pointer panics. -/
def handleResp (resp : Option Response) (errs : Option (List Err)) :
    Outcome (Option (List Err)) :=
  match errs with
  | some es => .ok (some es)
  | none =>
    match resp with
    | none => .panicked
    | some r =>
      if r.StatusCode ≠ 200 then
        .ok (some ["invalid response received: " ++ r.Status])
      else
        .ok none

/-! ## Data model -/

/-- Modelled from the spec: the constants `device.ONLINE` and `device.OFFLINE`
of the device package, whose declaration is not among the sources; the spec
gives the liveness classification as the enumeration of ONLINE and OFFLINE. -/
inductive State where
  | ONLINE
  | OFFLINE
deriving DecidableEq, Repr

/-- A handle on a value of `radio.Interface`. -/
abbrev RadioHandle := Nat

/-- The selector `device.SupportedDevice` of the kind of device. -/
abbrev SupportedDevice := Nat

/-- Modelled from the spec: the struct `device.Device`, whose declaration is
not among the sources. The fields are the ones `application.go` assigns
(`LocalUUID`, `ApplicationUUID`, `ResinUUID`, `Commit`, `LastSeen`, `State`,
`Progress`, `Radio`), typed as in the data model of the spec; `ResinUUID` is
the spec's RemoteUUID. A value of `device.Interface` is modelled by the
`Device` that its `GetDevice()` points to. -/
structure Device where
  LocalUUID : String
  ApplicationUUID : String
  ResinUUID : String
  Commit : String
  State : State
  Progress : Rat
  LastSeen : Time
  Radio : Option RadioHandle
deriving DecidableEq

/-- The struct `Application`; its `Database` and what `Radio` answers live in
`Env`. -/
structure Application where
  Name : String
  Directory : String
  Device : SupportedDevice
  Radio : RadioHandle
deriving DecidableEq

/-- A value decoded by `json.Unmarshal` into `interface{}`. -/
structure JValue where
  raw : String
deriving DecidableEq

/-- One call made during a pass, with the result it returned.
`createDevice` marks the call `a.createDevice(onlineDevice)` of `Process`. -/
inductive Call where
  | query (field value : String) (res : Except Err Bytes)
  | scan (name : String) (timeout : Nat) (res : Except Err (List String))
  | createDevice (localUUID : String)
  | provision (res : Except Err String)
  | now (t : Time)
  | insert (b : Bytes) (res : Except Err Bytes)
  | online (id : String) (timeout : Nat) (res : Except Err Bool)
  | update (key : String) (b : Bytes) (res : Option Err)
deriving DecidableEq

/-- The calls of a pass so far, oldest first. -/
abbrev Trace := List Call

/-- A Go `map[string]device.Interface`: `none` is the nil map, `some l` a map
with the entries of `l`. -/
abbrev GoMap := Option (List (String × Device))

/-- Everything `application.go` calls but does not define. -/
structure Env where
  /-- The call `a.Database.Query(field, value)`. -/
  query : Trace → String → String → Except Err Bytes
  /-- The call `a.Database.Insert(b)`. -/
  insert : Trace → Bytes → Except Err Bytes
  /-- The call `a.Database.Update(key, b)`. -/
  update : Trace → String → Bytes → Option Err
  /-- The call `a.Radio.Scan(name, timeout)`. -/
  scan : Trace → String → Nat → Except Err (List String)
  /-- The call `a.Radio.Online(id, timeout)`. -/
  online : Trace → String → Nat → Except Err Bool
  /-- The call `proxyvisor.Provision()`. -/
  provision : Trace → Except Err String
  /-- The call `time.Now()`. -/
  now : Trace → Time
  /-- The call `json.Unmarshal(resp, &buffer)`: the entries of `buffer`
  afterwards and the error returned. -/
  unmarshal : Bytes → List (String × JValue) × Option Err
  /-- The call `json.Marshal(value)`: the bytes returned (its error is
  discarded by the caller). -/
  marshal : JValue → Bytes
  /-- The call `device.Create(kind)`: a fresh device of the kind. -/
  create : SupportedDevice → Device
  /-- The call `d.Deserialise(b)`: the device afterwards, and the error
  returned. -/
  deserialise : Bytes → Device → Device × Option Err
  /-- The call `d.Serialise()` on a `*device.Device`. -/
  serialiseDevice : Device → Except Err Bytes
  /-- The call `value.Serialise()` on a `device.Interface`. -/
  serialise : Device → Except Err Bytes
  /-- The order in which a `range` visits the entries of a map. -/
  rangeOrder : Trace → List (String × Device) → List (String × Device)

/-- The conversion `string(b)` of a byte slice. -/
def bytesToString (b : Bytes) : String := b

/-- The assignment `m[k] = d` on a non-nil map: replaces the entry of `k`, or
adds one. -/
def mapInsert : List (String × Device) → String → Device → List (String × Device)
  | [], k, d => [(k, d)]
  | (k', d') :: m, k, d =>
    if k' = k then (k, d) :: m else (k', d') :: mapInsert m k d

/-- The entries of a map, none for the nil map (`range` and `len` accept the
nil map). -/
def entries (m : GoMap) : List (String × Device) := m.getD []

/-! ## application.go -/

/-- The loop of `loadDevices` over `buffer` (lines 112-118). The results of
`json.Marshal` and of `Deserialise` other than the bytes and the device are
discarded, as in the source. -/
def loadLoop (env : Env) (a : Application) :
    List (String × JValue) → List (String × Device) → List (String × Device)
  | [], devices => devices
  | (key, value) :: rest, devices =>
    let b := env.marshal value
    let i := env.create a.Device
    let i := (env.deserialise b i).1
    let i := { i with Radio := some a.Radio }
    loadLoop env a rest (mapInsert devices key i)

/-- Embedding of `Application.loadDevices` (lines 101-121): the map and the
error returned, and the trace afterwards. -/
def loadDevices (env : Env) (a : Application) (tr : Trace) :
    (GoMap × Option Err) × Trace :=
  match env.query tr "applicationUUID" a.Name with
  | .error e => ((none, some e), tr ++ [.query "applicationUUID" a.Name (.error e)])
  | .ok resp =>
    let tr := tr ++ [.query "applicationUUID" a.Name (.ok resp)]
    let (buffer, err) := env.unmarshal resp
    ((some (loadLoop env a buffer []), err), tr)

/-- The loop of `updateDevices` over the entries in the order visited. -/
def updateLoop (env : Env) : List (String × Device) → Trace → Option Err × Trace
  | [], tr => (none, tr)
  | (key, value) :: rest, tr =>
    match env.serialise value with
    | .error e => (some e, tr)
    | .ok buffer =>
      match env.update tr key buffer with
      | some e => (some e, tr ++ [.update key buffer (some e)])
      | none => updateLoop env rest (tr ++ [.update key buffer none])

/-- Embedding of `Application.updateDevices` (lines 123-137). -/
def updateDevices (env : Env) (devices : GoMap) (tr : Trace) : Option Err × Trace :=
  updateLoop env (env.rangeOrder tr (entries devices)) tr

/-- Embedding of `Application.createDevice` (lines 139-166): the device and
key returned, or the error, and the trace afterwards. -/
def createDevice (env : Env) (a : Application) (localUUID : String) (tr : Trace) :
    Except Err (Device × String) × Trace :=
  let i := env.create a.Device
  let d := { i with LocalUUID := localUUID, ApplicationUUID := a.Name }
  match env.provision tr with
  | .error e => (.error e, tr ++ [.provision (.error e)])
  | .ok resinUUID =>
    let tr := tr ++ [.provision (.ok resinUUID)]
    let d := { d with ResinUUID := resinUUID, Commit := "" }
    let t := env.now tr
    let tr := tr ++ [.now t]
    let d := { d with LastSeen := t, State := .ONLINE, Progress := 0, Radio := some a.Radio }
    match env.serialiseDevice d with
    | .error e => (.error e, tr)
    | .ok b =>
      match env.insert tr b with
      | .error e => (.error e, tr ++ [.insert b (.error e)])
      | .ok kb => (.ok (d, bytesToString kb), tr ++ [.insert b (.ok kb)])

/-- The test of lines 62-68: some device of the map has this `LocalUUID`. The
loop has no effect but to set the flag, so the order of the visit is
immaterial. -/
def deviceExists (m : GoMap) (onlineDevice : String) : Bool :=
  (entries m).any (fun e => e.2.LocalUUID == onlineDevice)

/-- The loop of `Process` over `onlineDevices` (lines 61-80). A failed
`createDevice` is `log.Fatal`; the assignment into a nil map panics. -/
def provisionLoop (env : Env) (a : Application) :
    List String → GoMap → Trace → Outcome GoMap × Trace
  | [], applicationDevices, tr => (.ok applicationDevices, tr)
  | onlineDevice :: rest, applicationDevices, tr =>
    if deviceExists applicationDevices onlineDevice then
      provisionLoop env a rest applicationDevices tr
    else
      match createDevice env a onlineDevice (tr ++ [.createDevice onlineDevice]) with
      | (.error _, tr) => (.fatal, tr)
      | (.ok (device, key), tr) =>
        match applicationDevices with
        | none => (.panicked, tr)
        | some l => provisionLoop env a rest (some (mapInsert l key device)) tr

/-- The loop of `Process` over the known devices (lines 82-94), on the
entries in the order visited. The devices are reached through pointers, so the
entries afterwards are the ones before with their devices updated. -/
def probeLoop (env : Env) :
    List (String × Device) → Trace → Outcome (List (String × Device)) × Trace
  | [], tr => (.ok [], tr)
  | (key, d) :: rest, tr =>
    match env.online tr d.LocalUUID 10 with
    | .error e => (.fatal, tr ++ [.online d.LocalUUID 10 (.error e)])
    | .ok true =>
      let tr := tr ++ [.online d.LocalUUID 10 (.ok true)]
      let d := { d with State := .ONLINE }
      let t := env.now tr
      let tr := tr ++ [.now t]
      let d := { d with LastSeen := t }
      match probeLoop env rest tr with
      | (.ok rest', tr) => (.ok ((key, d) :: rest'), tr)
      | (.fatal, tr) => (.fatal, tr)
      | (.panicked, tr) => (.panicked, tr)
    | .ok false =>
      let tr := tr ++ [.online d.LocalUUID 10 (.ok false)]
      let d := { d with State := .OFFLINE }
      match probeLoop env rest tr with
      | (.ok rest', tr) => (.ok ((key, d) :: rest'), tr)
      | (.fatal, tr) => (.fatal, tr)
      | (.panicked, tr) => (.panicked, tr)

/-- Lines 41-80 of `Process`: load (a failure is only logged), scan (a failure
is `log.Fatal`), provision. Returns the known set that the probe stage
starts from. -/
def discover (env : Env) (a : Application) : Outcome GoMap × Trace :=
  let ((applicationDevices, _), tr) := loadDevices env a []
  match env.scan tr a.Name 10 with
  | .error e => (.fatal, tr ++ [.scan a.Name 10 (.error e)])
  | .ok onlineDevices =>
    provisionLoop env a onlineDevices applicationDevices
      (tr ++ [.scan a.Name 10 (.ok onlineDevices)])

/-- Embedding of `Application.Process` (lines 27-99): when it returns, the
error returned and the last value of `applicationDevices`; and the trace of
the pass. `helper.GetApplication` is only logged and is left out. The result
of `a.updateDevices` is dropped (line 96) and `nil` is returned (line 98). -/
def Process (env : Env) (a : Application) : Outcome (Option Err × GoMap) × Trace :=
  match discover env a with
  | (.fatal, tr) => (.fatal, tr)
  | (.panicked, tr) => (.panicked, tr)
  | (.ok applicationDevices, tr) =>
    match probeLoop env (env.rangeOrder tr (entries applicationDevices)) tr with
    | (.fatal, tr) => (.fatal, tr)
    | (.panicked, tr) => (.panicked, tr)
    | (.ok probed, tr) =>
      let applicationDevices := applicationDevices.map (fun _ => probed)
      let (_, tr) := updateDevices env applicationDevices tr
      (.ok (none, applicationDevices), tr)

/-! ## Observations on a trace -/

/-- The identifiers `createDevice` was called with, oldest first. -/
def createdIds (tr : Trace) : List String :=
  tr.filterMap (fun c => match c with
    | .createDevice l => some l
    | _ => none)

/-- The keys the store returned from successful `Insert` calls. -/
def insertedKeys (tr : Trace) : List String :=
  tr.filterMap (fun c => match c with
    | .insert _ (.ok kb) => some (bytesToString kb)
    | _ => none)

/-- The identifiers `Radio.Online` was called with. -/
def probedIds (tr : Trace) : List String :=
  tr.filterMap (fun c => match c with
    | .online id _ _ => some id
    | _ => none)

/-- The keys `Database.Update` was called with. -/
def updatedKeys (tr : Trace) : List String :=
  tr.filterMap (fun c => match c with
    | .update key _ _ => some key
    | _ => none)

/-- The call writes to the store: it is an `Insert` or an `Update`. -/
def Call.isWrite : Call → Bool
  | .insert _ _ => true
  | .update _ _ _ => true
  | _ => false

/-! ## Concrete collaborators, used to run the pass on explicit inputs -/

/-- An application named app on radio 7. -/
def app0 : Application := ⟨"app", "/data", 0, 7⟩

/-- What `device.Create` returns in the concrete environments: every field at
its zero value. -/
def blank : Device := ⟨"", "", "", "", .OFFLINE, 0, 0, none⟩

/-- A key made of `n` letters k: the store of the concrete environments names
its `n`-th record this way. -/
def keyOfLength (n : Nat) : String := String.mk (List.replicate n (Char.ofNat 107))

/-- A store holding `stored`, a radio seeing `visible` on which the devices
of `live` answer, a backend that always provisions r-1, and a clock that
counts the calls made. A stored value deserialises to a device whose
`LocalUUID` is its text and whose `ResinUUID` is r-0; the text bad does not
deserialise. Keys of new records grow with the trace. Maps are visited in
reverse order of insertion. -/
def simpleEnv (stored : List (String × JValue)) (visible : List String)
    (live : List String) : Env where
  query := fun _ _ _ => .ok "resp"
  insert := fun h _ => .ok (keyOfLength h.length)
  update := fun _ _ _ => none
  scan := fun _ _ _ => .ok visible
  online := fun _ id _ => .ok (decide (id ∈ live))
  provision := fun _ => .ok "r-1"
  now := fun h => h.length
  unmarshal := fun _ => (stored, none)
  marshal := fun v => v.raw
  create := fun _ => blank
  deserialise := fun b d =>
    if b = "bad" then (d, some "unexpected end of JSON input")
    else ({ d with LocalUUID := b, ApplicationUUID := "app", ResinUUID := "r-0" }, none)
  serialiseDevice := fun d => .ok (d.LocalUUID ++ "/" ++ d.ResinUUID)
  serialise := fun d =>
    .ok (d.LocalUUID ++ "/" ++ d.ResinUUID ++ (if d.State = .ONLINE then "+" else "-"))
  rangeOrder := fun _ l => l.reverse

/-- One stored device AA:BB under key k1, visible and answering. -/
def onlineEnv : Env := simpleEnv [("k1", ⟨"AA:BB"⟩)] ["AA:BB"] ["AA:BB"]

/-- The device that `onlineEnv` loads from the store. -/
def storedDevice : Device := ⟨"AA:BB", "app", "r-0", "", .OFFLINE, 0, 0, some 7⟩

/-- One stored device AA:BB under key k1; the radio sees CC twice, AA:BB and
DD; only CC answers. -/
def mixedEnv : Env := simpleEnv [("k1", ⟨"AA:BB"⟩)] ["CC", "CC", "AA:BB", "DD"] ["CC"]

/-- One stored device AA:BB under key k1; the radio sees CC and DD; the
backend refuses to provision. -/
def provisionFailEnv : Env :=
  { simpleEnv [("k1", ⟨"AA:BB"⟩)] ["CC", "DD"] [] with
    provision := fun _ => .error "backend unavailable" }

/-- One stored device AA:BB under key k1; the radio sees CC, which answers;
the store returns the key k1 again from `Insert`. -/
def reissueEnv : Env :=
  { simpleEnv [("k1", ⟨"AA:BB"⟩)] ["CC"] ["CC"] with
    insert := fun _ _ => .ok "k1" }

/-- The environment of `simpleEnv` whose radio fails to scan. -/
def scanFailEnv : Env :=
  { simpleEnv [("k1", ⟨"AA:BB"⟩)] [] [] with
    scan := fun _ _ _ => .error "transport unavailable" }

/-- The environment of `simpleEnv` whose store refuses every `Update`. -/
def updateFailEnv : Env :=
  { simpleEnv [("k1", ⟨"AA:BB"⟩), ("k2", ⟨"CC:DD"⟩)] ["AA:BB"] ["AA:BB"] with
    update := fun _ _ _ => some "store is read-only" }

/-- The environment of `simpleEnv` with nothing stored, AA:BB visible, and a
store whose `Query` fails. -/
def queryFailEnv : Env :=
  { simpleEnv [] ["AA:BB"] ["AA:BB"] with
    query := fun _ _ _ => .error "store unavailable" }

end EdgeNodeManager

namespace EdgeNodeManager

/-! ## Maps -/

theorem mapInsert_keys (m : List (String × Device)) (k : String) (d : Device) :
    (mapInsert m k d).map Prod.fst =
      if k ∈ m.map Prod.fst then m.map Prod.fst else m.map Prod.fst ++ [k] := by
  induction m with
  | nil => simp [mapInsert]
  | cons e m ih =>
    obtain ⟨k', d'⟩ := e
    by_cases h : k' = k
    · subst h
      simp [mapInsert]
    · have h' : ¬ k = k' := fun hk => h hk.symm
      by_cases hm : k ∈ m.map Prod.fst
      · simp only [mapInsert, h, if_false, List.map_cons, ih, hm, if_true, List.mem_cons,
          or_true]
      · simp only [mapInsert, h, if_false, List.map_cons, ih, hm, List.mem_cons, h',
          or_self, List.cons_append]

theorem mapInsert_nodup (m : List (String × Device)) (k : String) (d : Device)
    (h : (m.map Prod.fst).Nodup) : ((mapInsert m k d).map Prod.fst).Nodup := by
  rw [mapInsert_keys]
  split
  · exact h
  · rename_i hk
    rw [List.nodup_append]
    refine ⟨h, List.nodup_singleton k, ?_⟩
    intro x hx hx'
    rw [List.mem_singleton] at hx'
    exact hk (hx' ▸ hx)

theorem mapInsert_of_not_mem (m : List (String × Device)) (k : String) (d : Device)
    (h : k ∉ m.map Prod.fst) : mapInsert m k d = m ++ [(k, d)] := by
  induction m with
  | nil => rfl
  | cons e m ih =>
    obtain ⟨k', d'⟩ := e
    simp only [List.map_cons, List.mem_cons, not_or] at h
    have h1 : ¬ k' = k := fun hk => h.1 hk.symm
    simp only [mapInsert, h1, if_false, ih h.2, List.cons_append]

theorem mem_mapInsert_of_ne (m : List (String × Device)) (k : String) (d : Device)
    (e : String × Device) (he : e ∈ m) (hne : e.1 ≠ k) : e ∈ mapInsert m k d := by
  induction m with
  | nil => cases he
  | cons e0 m ih =>
    obtain ⟨k', d'⟩ := e0
    by_cases h : k' = k
    · simp only [mapInsert, h, if_true]
      rcases List.mem_cons.mp he with h0 | h0
      · subst h0
        exact absurd h hne
      · exact List.mem_cons_of_mem _ h0
    · simp only [mapInsert, h, if_false]
      rcases List.mem_cons.mp he with h0 | h0
      · subst h0
        exact List.mem_cons_self _ _
      · exact List.mem_cons_of_mem _ (ih h0)

theorem loadLoop_nodup (env : Env) (a : Application) (buffer : List (String × JValue))
    (devices : List (String × Device)) (h : (devices.map Prod.fst).Nodup) :
    ((loadLoop env a buffer devices).map Prod.fst).Nodup := by
  induction buffer generalizing devices with
  | nil => exact h
  | cons e rest ih =>
    obtain ⟨key, value⟩ := e
    simp only [loadLoop]
    exact ih _ (mapInsert_nodup _ _ _ h)

theorem loadDevices_nodup (env : Env) (a : Application) (tr : Trace)
    (l : List (String × Device)) (e : Option Err) (tr0 : Trace)
    (h : loadDevices env a tr = ((some l, e), tr0)) : (l.map Prod.fst).Nodup := by
  unfold loadDevices at h
  cases hq : env.query tr "applicationUUID" a.Name with
  | error e0 => simp [hq] at h
  | ok resp =>
    simp only [hq, Prod.mk.injEq, Option.some.injEq] at h
    rw [← h.1.1]
    exact loadLoop_nodup env a _ [] List.nodup_nil

/-! ## Observations distribute over the concatenation of traces -/

theorem createdIds_append (s t : Trace) : createdIds (s ++ t) = createdIds s ++ createdIds t := by
  simp [createdIds, List.filterMap_append]

theorem insertedKeys_append (s t : Trace) :
    insertedKeys (s ++ t) = insertedKeys s ++ insertedKeys t := by
  simp [insertedKeys, List.filterMap_append]

theorem probedIds_append (s t : Trace) : probedIds (s ++ t) = probedIds s ++ probedIds t := by
  simp [probedIds, List.filterMap_append]

theorem updatedKeys_append (s t : Trace) :
    updatedKeys (s ++ t) = updatedKeys s ++ updatedKeys t := by
  simp [updatedKeys, List.filterMap_append]

theorem mem_updatedKeys (tr : Trace) (key : String) (b : Bytes) (res : Option Err)
    (h : Call.update key b res ∈ tr) : key ∈ updatedKeys tr := by
  unfold updatedKeys
  rw [List.mem_filterMap]
  exact ⟨_, h, rfl⟩

/-! ## What each stage adds to the trace -/

theorem createDevice_trace (env : Env) (a : Application) (L : String) (tr : Trace) :
    ∃ s, (createDevice env a L tr).2 = tr ++ s ∧ createdIds s = [] ∧ probedIds s = [] ∧
      updatedKeys s = [] ∧
      (∀ d key, (createDevice env a L tr).1 = .ok (d, key) →
        insertedKeys s = [key] ∧ d.LocalUUID = L) ∧
      (∀ e, (createDevice env a L tr).1 = .error e → insertedKeys s = []) := by
  unfold createDevice
  cases hp : env.provision tr with
  | error e =>
    exact ⟨[.provision (.error e)], rfl, rfl, rfl, rfl,
      fun d key h => by simp at h, fun _ _ => rfl⟩
  | ok R =>
    simp only []
    split
    · rename_i e hs
      exact ⟨[.provision (.ok R), .now (env.now (tr ++ [.provision (.ok R)]))],
        by simp, rfl, rfl, rfl, fun d key h => by simp at h, fun _ _ => rfl⟩
    · rename_i b hs
      split
      · rename_i e hi
        exact ⟨[.provision (.ok R), .now (env.now (tr ++ [.provision (.ok R)])),
            .insert b (.error e)],
          by simp, rfl, rfl, rfl, fun d key h => by simp at h, fun _ _ => rfl⟩
      · rename_i kb hi
        refine ⟨[.provision (.ok R), .now (env.now (tr ++ [.provision (.ok R)])),
            .insert b (.ok kb)], by simp, rfl, rfl, rfl, ?_, fun e h => by simp at h⟩
        intro d key h
        simp only [Except.ok.injEq, Prod.mk.injEq] at h
        obtain ⟨hd, hk⟩ := h
        subst hd
        subst hk
        exact ⟨rfl, rfl⟩

theorem provisionLoop_trace (env : Env) (a : Application) (ids : List String) (m : GoMap)
    (tr : Trace) :
    ∃ s, (provisionLoop env a ids m tr).2 = tr ++ s ∧ probedIds s = [] ∧
      updatedKeys s = [] := by
  induction ids generalizing m tr with
  | nil => exact ⟨[], by simp [provisionLoop], rfl, rfl⟩
  | cons id rest ih =>
    simp only [provisionLoop]
    split
    · exact ih m tr
    · obtain ⟨s, hs, hc, hp, hu, -, -⟩ := createDevice_trace env a id (tr ++ [.createDevice id])
      cases hcd : createDevice env a id (tr ++ [.createDevice id]) with
      | mk r t =>
        rw [hcd] at hs
        simp only at hs
        subst hs
        cases r with
        | error e =>
          exact ⟨[.createDevice id] ++ s, by simp,
            by rw [probedIds_append, hp]; rfl, by rw [updatedKeys_append, hu]; rfl⟩
        | ok dk =>
          obtain ⟨device, key⟩ := dk
          cases m with
          | none =>
            exact ⟨[.createDevice id] ++ s, by simp,
              by rw [probedIds_append, hp]; rfl, by rw [updatedKeys_append, hu]; rfl⟩
          | some l =>
            obtain ⟨s2, hs2, hp2, hu2⟩ :=
              ih (some (mapInsert l key device)) (tr ++ [.createDevice id] ++ s)
            refine ⟨[.createDevice id] ++ s ++ s2, ?_, ?_, ?_⟩
            · simpa only [List.append_assoc] using hs2
            · rw [probedIds_append, probedIds_append, hp, hp2]; rfl
            · rw [updatedKeys_append, updatedKeys_append, hu, hu2]; rfl

theorem probeLoop_trace (env : Env) (l : List (String × Device)) (tr : Trace) :
    ∃ s, (probeLoop env l tr).2 = tr ++ s ∧ createdIds s = [] ∧ insertedKeys s = [] ∧
      updatedKeys s = [] := by
  induction l generalizing tr with
  | nil => exact ⟨[], by simp [probeLoop], rfl, rfl, rfl⟩
  | cons e rest ih =>
    obtain ⟨key, d⟩ := e
    cases ho : env.online tr d.LocalUUID 10 with
    | error e =>
      simp only [probeLoop, ho]
      exact ⟨[.online d.LocalUUID 10 (.error e)], rfl, rfl, rfl, rfl⟩
    | ok b =>
      cases b with
      | true =>
        simp only [probeLoop, ho]
        obtain ⟨s, hs, h1, h2, h3⟩ := ih (tr ++ [.online d.LocalUUID 10 (.ok true)] ++
          [.now (env.now (tr ++ [.online d.LocalUUID 10 (.ok true)]))])
        refine ⟨[.online d.LocalUUID 10 (.ok true),
          .now (env.now (tr ++ [.online d.LocalUUID 10 (.ok true)]))] ++ s, ?_, ?_, ?_, ?_⟩
        · split <;> rename_i heq <;> rw [heq] at hs <;> simpa using hs
        · rw [createdIds_append, h1]; rfl
        · rw [insertedKeys_append, h2]; rfl
        · rw [updatedKeys_append, h3]; rfl
      | false =>
        simp only [probeLoop, ho]
        obtain ⟨s, hs, h1, h2, h3⟩ := ih (tr ++ [.online d.LocalUUID 10 (.ok false)])
        refine ⟨[.online d.LocalUUID 10 (.ok false)] ++ s, ?_, ?_, ?_, ?_⟩
        · split <;> rename_i heq <;> rw [heq] at hs <;> simpa using hs
        · rw [createdIds_append, h1]; rfl
        · rw [insertedKeys_append, h2]; rfl
        · rw [updatedKeys_append, h3]; rfl

theorem updateLoop_trace (env : Env) (l : List (String × Device)) (tr : Trace) :
    ∃ s, (updateLoop env l tr).2 = tr ++ s ∧ createdIds s = [] ∧ insertedKeys s = [] ∧
      probedIds s = [] := by
  induction l generalizing tr with
  | nil => exact ⟨[], by simp [updateLoop], rfl, rfl, rfl⟩
  | cons e rest ih =>
    obtain ⟨key, d⟩ := e
    cases hs : env.serialise d with
    | error e =>
      simp only [updateLoop, hs]
      exact ⟨[], by simp, rfl, rfl, rfl⟩
    | ok buffer =>
      cases hu : env.update tr key buffer with
      | some e =>
        simp only [updateLoop, hs, hu]
        exact ⟨[.update key buffer (some e)], rfl, rfl, rfl, rfl⟩
      | none =>
        simp only [updateLoop, hs, hu]
        obtain ⟨s, hs, h1, h2, h3⟩ := ih (tr ++ [.update key buffer none])
        refine ⟨[.update key buffer none] ++ s, ?_, ?_, ?_, ?_⟩
        · simpa using hs
        · rw [createdIds_append, h1]; rfl
        · rw [insertedKeys_append, h2]; rfl
        · rw [probedIds_append, h3]; rfl

theorem loadDevices_trace (env : Env) (a : Application) :
    ∃ r, (loadDevices env a []).2 = [.query "applicationUUID" a.Name r] := by
  unfold loadDevices
  cases hq : env.query [] "applicationUUID" a.Name with
  | error e => exact ⟨_, rfl⟩
  | ok resp => exact ⟨_, rfl⟩

theorem discover_trace (env : Env) (a : Application) :
    probedIds (discover env a).2 = [] ∧ updatedKeys (discover env a).2 = [] := by
  obtain ⟨r, hr⟩ := loadDevices_trace env a
  unfold discover
  cases hl : loadDevices env a [] with
  | mk me tr0 =>
    obtain ⟨m, e⟩ := me
    rw [hl] at hr
    simp only at hr
    subst hr
    simp only []
    cases hsc : env.scan [.query "applicationUUID" a.Name r] a.Name 10 with
    | error e0 => exact ⟨rfl, rfl⟩
    | ok ids =>
      simp only []
      obtain ⟨s, hs, hp, hu⟩ := provisionLoop_trace env a ids m
        ([.query "applicationUUID" a.Name r] ++ [.scan a.Name 10 (.ok ids)])
      rw [hs]
      exact ⟨by rw [probedIds_append, hp]; rfl, by rw [updatedKeys_append, hu]; rfl⟩

/-! ## The probe loop and the save loop -/

theorem forall₂_left {α β : Type} {R : α → β → Prop} {l : List α} {l' : List β}
    (h : List.Forall₂ R l l') : ∀ x ∈ l, ∃ y ∈ l', R x y := by
  induction h with
  | nil => intro x hx; cases hx
  | cons hr _ ih =>
    intro x hx
    rcases List.mem_cons.mp hx with h0 | h0
    · subst h0
      exact ⟨_, List.mem_cons_self _ _, hr⟩
    · obtain ⟨y, hy, hxy⟩ := ih x h0
      exact ⟨y, List.mem_cons_of_mem _ hy, hxy⟩

theorem forall₂_right {α β : Type} {R : α → β → Prop} {l : List α} {l' : List β}
    (h : List.Forall₂ R l l') : ∀ y ∈ l', ∃ x ∈ l, R x y := by
  induction h with
  | nil => intro y hy; cases hy
  | cons hr _ ih =>
    intro y hy
    rcases List.mem_cons.mp hy with h0 | h0
    · subst h0
      exact ⟨_, List.mem_cons_self _ _, hr⟩
    · obtain ⟨x, hx, hxy⟩ := ih y h0
      exact ⟨x, List.mem_cons_of_mem _ hx, hxy⟩

/-- When the probe loop completes, every entry keeps its key, and its device
is the one before with the liveness fields set from the answer of its own
`Online` call: the call made after the history `h`, recorded in the trace
right after `h`. -/
theorem probeLoop_rel (env : Env) (l : List (String × Device)) (tr : Trace)
    (l' : List (String × Device)) (tr' : Trace) (hrun : probeLoop env l tr = (.ok l', tr')) :
    List.Forall₂ (fun e e' => e'.1 = e.1 ∧ ∃ h : Trace,
      ((h ++ [.online e.2.LocalUUID 10 (.ok true)]) <+: tr' ∧
        env.online h e.2.LocalUUID 10 = .ok true ∧
        e'.2 = { e.2 with State := .ONLINE,
                          LastSeen := env.now (h ++ [.online e.2.LocalUUID 10 (.ok true)]) }) ∨
      ((h ++ [.online e.2.LocalUUID 10 (.ok false)]) <+: tr' ∧
        env.online h e.2.LocalUUID 10 = .ok false ∧
        e'.2 = { e.2 with State := .OFFLINE })) l l' := by
  induction l generalizing tr l' tr' with
  | nil =>
    simp only [probeLoop, Prod.mk.injEq, Outcome.ok.injEq] at hrun
    rw [← hrun.1]
    exact List.Forall₂.nil
  | cons e rest ih =>
    obtain ⟨key, d⟩ := e
    cases ho : env.online tr d.LocalUUID 10 with
    | error e0 => simp [probeLoop, ho] at hrun
    | ok b =>
      cases b with
      | true =>
        simp only [probeLoop, ho] at hrun
        split at hrun
        · rename_i rest' t heq
          simp only [Prod.mk.injEq, Outcome.ok.injEq] at hrun
          obtain ⟨s, hs, -⟩ := probeLoop_trace env rest (tr ++ [.online d.LocalUUID 10 (.ok true)] ++
            [.now (env.now (tr ++ [.online d.LocalUUID 10 (.ok true)]))])
          rw [heq] at hs
          simp only at hs
          rw [← hrun.1, ← hrun.2]
          refine List.Forall₂.cons ⟨rfl, tr, Or.inl ⟨?_, ho, rfl⟩⟩ (ih _ _ _ heq)
          rw [hs, List.append_assoc]
          exact List.prefix_append _ _
        · simp at hrun
        · simp at hrun
      | false =>
        simp only [probeLoop, ho] at hrun
        split at hrun
        · rename_i rest' t heq
          simp only [Prod.mk.injEq, Outcome.ok.injEq] at hrun
          obtain ⟨s, hs, -⟩ := probeLoop_trace env rest (tr ++ [.online d.LocalUUID 10 (.ok false)])
          rw [heq] at hs
          simp only at hs
          rw [← hrun.1, ← hrun.2]
          refine List.Forall₂.cons ⟨rfl, tr, Or.inr ⟨?_, ho, rfl⟩⟩ (ih _ _ _ heq)
          rw [hs]
          exact List.prefix_append _ _
        · simp at hrun
        · simp at hrun

/-- Every call in the trace of the save loop was there before, or is an
`Update` of the key of an entry with the serialisation of its device. -/
theorem updateLoop_calls (env : Env) (l : List (String × Device)) (tr : Trace) :
    ∀ c ∈ (updateLoop env l tr).2, c ∈ tr ∨
      ∃ key d buffer res, (key, d) ∈ l ∧ env.serialise d = .ok buffer ∧
        c = .update key buffer res := by
  induction l generalizing tr with
  | nil => intro c hc; exact Or.inl (by simpa [updateLoop] using hc)
  | cons e rest ih =>
    obtain ⟨key, d⟩ := e
    intro c hc
    cases hs : env.serialise d with
    | error e0 =>
      simp only [updateLoop, hs] at hc
      exact Or.inl hc
    | ok buffer =>
      cases hu : env.update tr key buffer with
      | some e0 =>
        simp only [updateLoop, hs, hu, List.mem_append, List.mem_singleton] at hc
        rcases hc with hc | hc
        · exact Or.inl hc
        · exact Or.inr ⟨key, d, buffer, some e0, List.mem_cons_self _ _, hs, hc⟩
      | none =>
        simp only [updateLoop, hs, hu] at hc
        rcases ih _ c hc with h1 | ⟨k, d0, b, r, hm, hser, hceq⟩
        · rcases List.mem_append.mp h1 with h2 | h2
          · exact Or.inl h2
          · rw [List.mem_singleton] at h2
            exact Or.inr ⟨key, d, buffer, none, List.mem_cons_self _ _, hs, h2⟩
        · exact Or.inr ⟨k, d0, b, r, List.mem_cons_of_mem _ hm, hser, hceq⟩

/-- Whatever the collaborators do, `Process` does not return a non-nil
error: it returns nil, or does not return. -/
theorem Process_returns_nil (env : Env) (a : Application) (err : Option Err) (m : GoMap)
    (h : (Process env a).1 = .ok (err, m)) : err = none := by
  unfold Process at h
  split at h
  · simp at h
  · simp at h
  · split at h
    · simp at h
    · simp at h
    · simp only [Outcome.ok.injEq, Prod.mk.injEq] at h
      exact h.1.symm

/-! ## The shape of a pass -/

theorem Process_of_probed (env : Env) (a : Application) (known : GoMap) (tr : Trace)
    (probed : List (String × Device)) (tr1 : Trace)
    (hd : discover env a = (.ok known, tr))
    (hp : probeLoop env (env.rangeOrder tr (entries known)) tr = (.ok probed, tr1)) :
    Process env a =
      (.ok (none, known.map (fun _ => probed)),
        (updateDevices env (known.map (fun _ => probed)) tr1).2) := by
  unfold Process
  rw [hd]
  simp only [hp]

theorem Process_of_probe_stopped (env : Env) (a : Application) (known : GoMap) (tr : Trace)
    (o : Outcome (List (String × Device))) (tr1 : Trace)
    (hd : discover env a = (.ok known, tr))
    (hp : probeLoop env (env.rangeOrder tr (entries known)) tr = (o, tr1))
    (ho : ∀ probed, o ≠ .ok probed) :
    (Process env a).2 = tr1 ∧ ∀ r, (Process env a).1 ≠ .ok r := by
  unfold Process
  rw [hd]
  simp only [hp]
  cases o with
  | ok probed => exact absurd rfl (ho probed)
  | fatal => exact ⟨rfl, fun r h => by simp at h⟩
  | panicked => exact ⟨rfl, fun r h => by simp at h⟩

theorem Process_of_discover_stopped (env : Env) (a : Application) (o : Outcome GoMap)
    (tr : Trace) (hd : discover env a = (o, tr)) (ho : ∀ known, o ≠ .ok known) :
    (Process env a).2 = tr ∧ ∀ r, (Process env a).1 ≠ .ok r := by
  unfold Process
  rw [hd]
  cases o with
  | ok known => exact absurd rfl (ho known)
  | fatal => exact ⟨rfl, fun r h => by simp at h⟩
  | panicked => exact ⟨rfl, fun r h => by simp at h⟩

theorem mem_entries_map (known : GoMap) (probed : List (String × Device))
    (e : String × Device) (h : e ∈ entries (known.map (fun _ => probed))) :
    e ∈ probed ∧ ∃ l, known = some l := by
  cases known with
  | none => simp [entries] at h
  | some l => exact ⟨by simpa [entries] using h, l, rfl⟩

theorem probed_prefix_Process (env : Env) (a : Application) (known : GoMap) (tr : Trace)
    (probed : List (String × Device)) (tr1 : Trace)
    (hd : discover env a = (.ok known, tr))
    (hp : probeLoop env (env.rangeOrder tr (entries known)) tr = (.ok probed, tr1)) :
    tr1 <+: (Process env a).2 := by
  rw [Process_of_probed env a known tr probed tr1 hd hp]
  obtain ⟨s2, hs2, -⟩ :=
    updateLoop_trace env (env.rangeOrder tr1 (entries (known.map (fun _ => probed)))) tr1
  simp only [updateDevices]
  rw [hs2]
  exact List.prefix_append _ _

/-- No `Update` is made before the save loop. -/
theorem no_update_before_save (env : Env) (a : Application) (o : Outcome GoMap) (tr : Trace)
    (l : List (String × Device)) (hd : discover env a = (o, tr)) (key : String) (b : Bytes)
    (res : Option Err) : Call.update key b res ∉ (probeLoop env l tr).2 := by
  intro h
  have h1 := mem_updatedKeys _ _ _ _ h
  obtain ⟨s, hs, -, -, hu⟩ := probeLoop_trace env l tr
  have h2 := (discover_trace env a).2
  rw [hd] at h2
  simp only at h2
  rw [hs, updatedKeys_append, h2, hu] at h1
  cases h1

/-! ## The provisioning loop -/

theorem deviceExists_iff (m : List (String × Device)) (id : String) :
    deviceExists (some m) id = true ↔ id ∈ m.map (fun e => e.2.LocalUUID) := by
  simp only [deviceExists, entries, Option.getD_some, List.any_eq_true, beq_iff_eq,
    List.mem_map]

/-- The trace after the provisioning loop extends the one before. -/
theorem provisionLoop_extends (env : Env) (a : Application) (ids : List String) (m : GoMap)
    (tr : Trace) (out : Outcome GoMap) (tr' : Trace)
    (hrun : provisionLoop env a ids m tr = (out, tr')) : ∃ s, tr' = tr ++ s := by
  obtain ⟨s, hs, -, -⟩ := provisionLoop_trace env a ids m tr
  rw [hrun] at hs
  exact ⟨s, hs⟩

/-- When the store never hands out a key of `K0`, the provisioning loop keeps
every entry whose key is in `K0`, and keeps the keys distinct. -/
theorem provisionLoop_keeps (env : Env) (a : Application) (K0 : List String)
    (ids : List String) (m : List (String × Device)) (tr : Trace) (out : GoMap)
    (tr' : Trace) (hrun : provisionLoop env a ids (some m) tr = (.ok out, tr'))
    (hK0 : ∀ k ∈ insertedKeys tr', k ∉ K0) :
    ∃ m', out = some m' ∧ (∀ e ∈ m, e.1 ∈ K0 → e ∈ m') ∧
      ((m.map Prod.fst).Nodup → (m'.map Prod.fst).Nodup) := by
  induction ids generalizing m tr with
  | nil =>
    simp only [provisionLoop, Prod.mk.injEq, Outcome.ok.injEq] at hrun
    exact ⟨m, hrun.1.symm, fun e he _ => he, fun h => h⟩
  | cons id rest ih =>
    simp only [provisionLoop] at hrun
    split at hrun
    · exact ih m tr hrun
    · obtain ⟨s, hs, -, -, -, hok, -⟩ := createDevice_trace env a id (tr ++ [.createDevice id])
      cases hcd : createDevice env a id (tr ++ [.createDevice id]) with
      | mk r t =>
        rw [hcd] at hs hok hrun
        simp only at hs hok hrun
        cases r with
        | error e => simp at hrun
        | ok dk =>
          obtain ⟨device, key⟩ := dk
          simp only at hrun
          obtain ⟨hins, -⟩ := hok device key rfl
          obtain ⟨s2, hs2⟩ := provisionLoop_extends env a rest _ t _ tr' hrun
          have hkey : key ∉ K0 := by
            apply hK0
            rw [hs2, hs, insertedKeys_append, insertedKeys_append, hins]
            simp
          obtain ⟨m', hm', hkeep, hnd⟩ := ih (mapInsert m key device) t hrun
          refine ⟨m', hm', ?_, fun h => hnd (mapInsert_nodup m key device h)⟩
          intro e he heK
          exact hkeep e (mem_mapInsert_of_ne m key device e he
            (fun h => hkey (h ▸ heK))) heK

/-- The identifiers that the provisioning loop creates, when the store hands
out keys that are new: each is visible and unknown, none is created twice, and
unless the loop is ended by `log.Fatal` every visible unknown identifier is
created. The loop does not panic on a non-nil map. -/
theorem provisionLoop_created (env : Env) (a : Application) (K0 : List String)
    (ids : List String) (m : List (String × Device)) (tr : Trace) (out : Outcome GoMap)
    (tr' : Trace) (hrun : provisionLoop env a ids (some m) tr = (out, tr'))
    (hnd : (insertedKeys tr').Nodup)
    (hK0 : ∀ k ∈ insertedKeys tr', k ∉ K0)
    (hkeys : ∀ k ∈ m.map Prod.fst, k ∈ K0 ∨ k ∈ insertedKeys tr) :
    ∃ cs, createdIds tr' = createdIds tr ++ cs ∧ cs.Nodup ∧
      (∀ id ∈ cs, id ∈ ids ∧ id ∉ m.map (fun e => e.2.LocalUUID)) ∧
      (out ≠ .fatal → ∀ id ∈ ids, id ∉ m.map (fun e => e.2.LocalUUID) → id ∈ cs) ∧
      out ≠ .panicked := by
  induction ids generalizing m tr with
  | nil =>
    simp only [provisionLoop, Prod.mk.injEq] at hrun
    refine ⟨[], by rw [← hrun.2]; simp, List.nodup_nil, (fun id h => by cases h),
      (fun _ id h => by cases h), ?_⟩
    rw [← hrun.1]
    intro h
    cases h
  | cons id rest ih =>
    simp only [provisionLoop] at hrun
    split at hrun
    · rename_i hex
      rw [deviceExists_iff] at hex
      obtain ⟨cs, h1, h2, h3, h4, h5⟩ := ih m tr hrun hkeys
      refine ⟨cs, h1, h2, fun x hx => ⟨List.mem_cons_of_mem _ (h3 x hx).1, (h3 x hx).2⟩, ?_, h5⟩
      intro hout x hx hxm
      rcases List.mem_cons.mp hx with h0 | h0
      · subst h0
        exact absurd hex hxm
      · exact h4 hout x h0 hxm
    · rename_i hex
      rw [deviceExists_iff] at hex
      obtain ⟨s, hs, hc, -, -, hok, -⟩ :=
        createDevice_trace env a id (tr ++ [.createDevice id])
      cases hcd : createDevice env a id (tr ++ [.createDevice id]) with
      | mk r t =>
        rw [hcd] at hs hok hrun
        simp only at hs hok hrun
        have hct : createdIds t = createdIds tr ++ [id] := by
          rw [hs, createdIds_append, createdIds_append, hc]
          simp [createdIds]
        cases r with
        | error e =>
          simp only [Prod.mk.injEq] at hrun
          obtain ⟨ho, ht⟩ := hrun
          subst ho
          subst ht
          exact ⟨[id], hct, List.nodup_singleton id,
            fun x hx => by
              rw [List.mem_singleton] at hx
              subst hx
              exact ⟨List.mem_cons_self _ _, hex⟩,
            (fun h => absurd rfl h), (fun h => by cases h)⟩
        | ok dk =>
          obtain ⟨device, key⟩ := dk
          simp only at hrun
          obtain ⟨hins, hloc⟩ := hok device key rfl
          obtain ⟨s2, hs2⟩ := provisionLoop_extends env a rest _ t _ tr' hrun
          have hit : insertedKeys t = insertedKeys tr ++ [key] := by
            rw [hs, insertedKeys_append, insertedKeys_append, hins]
            simp [insertedKeys]
          have hall : insertedKeys tr' = insertedKeys tr ++ [key] ++ insertedKeys s2 := by
            rw [hs2, insertedKeys_append, hit]
          have hkeyK0 : key ∉ K0 := hK0 key (by rw [hall]; simp)
          have hkeytr : key ∉ insertedKeys tr := by
            rw [hall, List.append_assoc] at hnd
            have := (List.nodup_append.mp hnd).2.2
            intro hk
            exact this hk (by simp)
          have hkeym : key ∉ m.map Prod.fst := by
            intro hk
            rcases hkeys key hk with h0 | h0
            · exact hkeyK0 h0
            · exact hkeytr h0
          rw [mapInsert_of_not_mem m key device hkeym] at hrun
          have hkeys' : ∀ k ∈ (m ++ [(key, device)]).map Prod.fst,
              k ∈ K0 ∨ k ∈ insertedKeys t := by
            intro k hk
            rw [List.map_append, List.mem_append] at hk
            rw [hit]
            rcases hk with h0 | h0
            · rcases hkeys k h0 with h1 | h1
              · exact Or.inl h1
              · exact Or.inr (List.mem_append_left _ h1)
            · simp only [List.map_cons, List.map_nil, List.mem_singleton] at h0
              exact Or.inr (by rw [h0]; simp)
          obtain ⟨cs, h1, h2, h3, h4, h5⟩ := ih (m ++ [(key, device)]) t hrun hkeys'
          have hidm : id ∈ (m ++ [(key, device)]).map (fun e => e.2.LocalUUID) := by
            rw [List.map_append, List.mem_append]
            exact Or.inr (by simp [hloc])
          refine ⟨id :: cs, ?_, ?_, ?_, ?_, h5⟩
          · rw [h1, hct]
            simp
          · exact List.nodup_cons.mpr ⟨fun h => (h3 id h).2 hidm, h2⟩
          · intro x hx
            rcases List.mem_cons.mp hx with h0 | h0
            · subst h0
              exact ⟨List.mem_cons_self _ _, hex⟩
            · refine ⟨List.mem_cons_of_mem _ (h3 x h0).1, ?_⟩
              intro hxm
              apply (h3 x h0).2
              rw [List.map_append, List.mem_append]
              exact Or.inl hxm
          · intro hout x hx hxm
            rcases List.mem_cons.mp hx with h0 | h0
            · subst h0
              exact List.mem_cons_self _ _
            · by_cases hxid : x = id
              · subst hxid
                exact List.mem_cons_self _ _
              · refine List.mem_cons_of_mem _ (h4 hout x h0 ?_)
                intro hxm'
                rw [List.map_append, List.mem_append] at hxm'
                rcases hxm' with h6 | h6
                · exact hxm h6
                · simp only [List.map_cons, List.map_nil, List.mem_singleton] at h6
                  rw [hloc] at h6
                  exact hxid h6

/-! ## A pass in which no call fails -/

theorem createDevice_ok (env : Env) (a : Application) (L : String) (tr : Trace)
    (hprov : ∀ h, ∃ R, env.provision h = .ok R)
    (hser : ∀ d, ∃ b, env.serialiseDevice d = .ok b)
    (hins : ∀ h b, ∃ k, env.insert h b = .ok k) :
    ∃ d key, (createDevice env a L tr).1 = .ok (d, key) := by
  obtain ⟨R, hR⟩ := hprov tr
  obtain ⟨b, hb⟩ := hser ⟨L, a.Name, R, "", .ONLINE, 0,
    env.now (tr ++ [.provision (.ok R)]), some a.Radio⟩
  obtain ⟨k, hk⟩ := hins (tr ++ [.provision (.ok R),
    .now (env.now (tr ++ [.provision (.ok R)]))]) b
  simp only [List.append_assoc, List.singleton_append] at hk
  refine ⟨⟨L, a.Name, R, "", .ONLINE, 0, env.now (tr ++ [.provision (.ok R)]),
    some a.Radio⟩, bytesToString k, ?_⟩
  simp [createDevice, hR, hb, hk]

theorem provisionLoop_ok (env : Env) (a : Application) (ids : List String)
    (m : List (String × Device)) (tr : Trace)
    (hprov : ∀ h, ∃ R, env.provision h = .ok R)
    (hser : ∀ d, ∃ b, env.serialiseDevice d = .ok b)
    (hins : ∀ h b, ∃ k, env.insert h b = .ok k) :
    ∃ m', (provisionLoop env a ids (some m) tr).1 = .ok (some m') := by
  induction ids generalizing m tr with
  | nil => exact ⟨m, rfl⟩
  | cons id rest ih =>
    simp only [provisionLoop]
    split
    · exact ih m tr
    · obtain ⟨d, key, hdk⟩ :=
        createDevice_ok env a id (tr ++ [.createDevice id]) hprov hser hins
      cases hcd : createDevice env a id (tr ++ [.createDevice id]) with
      | mk r t =>
        rw [hcd] at hdk
        simp only at hdk
        subst hdk
        exact ih (mapInsert m key d) t

theorem probeLoop_ok (env : Env) (l : List (String × Device)) (tr : Trace)
    (honl : ∀ h id t, ∃ b, env.online h id t = .ok b) :
    ∃ l', (probeLoop env l tr).1 = .ok l' := by
  induction l generalizing tr with
  | nil => exact ⟨[], rfl⟩
  | cons e rest ih =>
    obtain ⟨key, d⟩ := e
    obtain ⟨b, hb⟩ := honl tr d.LocalUUID 10
    cases b with
    | true =>
      simp only [probeLoop, hb]
      obtain ⟨l', hl'⟩ := ih (tr ++ [.online d.LocalUUID 10 (.ok true)] ++
        [.now (env.now (tr ++ [.online d.LocalUUID 10 (.ok true)]))])
      split <;> rename_i heq <;> rw [heq] at hl' <;> simp at hl' ⊢
    | false =>
      simp only [probeLoop, hb]
      obtain ⟨l', hl'⟩ := ih (tr ++ [.online d.LocalUUID 10 (.ok false)])
      split <;> rename_i heq <;> rw [heq] at hl' <;> simp at hl' ⊢

/-- A completed probe loop keeps the keys and the local identifiers, in the
order visited, and has made one `Online` call per entry. -/
theorem probeLoop_shape (env : Env) (l : List (String × Device)) (tr : Trace)
    (l' : List (String × Device)) (tr' : Trace) (hrun : probeLoop env l tr = (.ok l', tr')) :
    l'.map Prod.fst = l.map Prod.fst ∧
    l'.map (fun e => e.2.LocalUUID) = l.map (fun e => e.2.LocalUUID) ∧
    probedIds tr' = probedIds tr ++ l.map (fun e => e.2.LocalUUID) := by
  induction l generalizing tr l' tr' with
  | nil =>
    simp only [probeLoop, Prod.mk.injEq, Outcome.ok.injEq] at hrun
    rw [← hrun.1, ← hrun.2]
    simp
  | cons e rest ih =>
    obtain ⟨key, d⟩ := e
    cases ho : env.online tr d.LocalUUID 10 with
    | error e0 => simp [probeLoop, ho] at hrun
    | ok b =>
      cases b with
      | true =>
        simp only [probeLoop, ho] at hrun
        split at hrun
        · rename_i rest' t heq
          simp only [Prod.mk.injEq, Outcome.ok.injEq] at hrun
          obtain ⟨h1, h2, h3⟩ := ih _ _ _ heq
          rw [← hrun.1, ← hrun.2, h3]
          simp [h1, h2, probedIds_append, probedIds]
        · simp at hrun
        · simp at hrun
      | false =>
        simp only [probeLoop, ho] at hrun
        split at hrun
        · rename_i rest' t heq
          simp only [Prod.mk.injEq, Outcome.ok.injEq] at hrun
          obtain ⟨h1, h2, h3⟩ := ih _ _ _ heq
          rw [← hrun.1, ← hrun.2, h3]
          simp [h1, h2, probedIds_append, probedIds]
        · simp at hrun
        · simp at hrun

theorem updateLoop_ok (env : Env) (l : List (String × Device)) (tr : Trace)
    (hser : ∀ d, ∃ b, env.serialise d = .ok b)
    (hupd : ∀ h k b, env.update h k b = none) :
    updatedKeys (updateLoop env l tr).2 = updatedKeys tr ++ l.map Prod.fst := by
  induction l generalizing tr with
  | nil => simp [updateLoop]
  | cons e rest ih =>
    obtain ⟨key, d⟩ := e
    obtain ⟨b, hb⟩ := hser d
    simp only [updateLoop, hb, hupd tr key b]
    rw [ih, updatedKeys_append]
    simp [updatedKeys]

theorem discover_of_loaded (env : Env) (a : Application) (m : GoMap) (e : Option Err)
    (tr0 : Trace) (ids : List String) (hload : loadDevices env a [] = ((m, e), tr0))
    (hscan : env.scan tr0 a.Name 10 = .ok ids) :
    discover env a = provisionLoop env a ids m (tr0 ++ [.scan a.Name 10 (.ok ids)]) := by
  unfold discover
  rw [hload]
  simp only [hscan]

/-- The probe and save stages make no `createDevice` and no `Insert`. -/
theorem Process_after_discover (env : Env) (a : Application) :
    ∃ s, (Process env a).2 = (discover env a).2 ++ s ∧ createdIds s = [] ∧
      insertedKeys s = [] := by
  cases hd : discover env a with
  | mk o tr =>
    cases o with
    | ok known =>
      cases hp : probeLoop env (env.rangeOrder tr (entries known)) tr with
      | mk o1 tr1 =>
        obtain ⟨s1, hs1, hc1, hi1, -⟩ :=
          probeLoop_trace env (env.rangeOrder tr (entries known)) tr
        rw [hp] at hs1
        simp only at hs1
        cases o1 with
        | ok probed =>
          rw [Process_of_probed env a known tr probed tr1 hd hp]
          obtain ⟨s2, hs2, hc2, hi2, -⟩ :=
            updateLoop_trace env (env.rangeOrder tr1 (entries (known.map (fun _ => probed)))) tr1
          refine ⟨s1 ++ s2, ?_, ?_, ?_⟩
          · simp only [updateDevices, hs2, hs1, List.append_assoc]
            rw [← hs1, hs2, hs1, List.append_assoc]
          · rw [createdIds_append, hc1, hc2]; rfl
          · rw [insertedKeys_append, hi1, hi2]; rfl
        | fatal =>
          obtain ⟨h2, -⟩ := Process_of_probe_stopped env a known tr _ tr1 hd hp
            (fun _ h => by cases h)
          exact ⟨s1, by rw [h2, hs1], hc1, hi1⟩
        | panicked =>
          obtain ⟨h2, -⟩ := Process_of_probe_stopped env a known tr _ tr1 hd hp
            (fun _ h => by cases h)
          exact ⟨s1, by rw [h2, hs1], hc1, hi1⟩
    | fatal =>
      obtain ⟨h2, -⟩ := Process_of_discover_stopped env a _ tr hd (fun _ h => by cases h)
      exact ⟨[], by rw [h2]; simp, rfl, rfl⟩
    | panicked =>
      obtain ⟨h2, -⟩ := Process_of_discover_stopped env a _ tr hd (fun _ h => by cases h)
      exact ⟨[], by rw [h2]; simp, rfl, rfl⟩

theorem Process_fatal_of_discover (env : Env) (a : Application) (tr : Trace)
    (hd : discover env a = (.fatal, tr)) : (Process env a).1 = .fatal := by
  unfold Process
  rw [hd]

/-- An `Update` of a pass is made by the save loop, for an entry of the set
that the probe loop produced, with the serialisation of its device. -/
theorem update_of_Process (env : Env) (a : Application) (key : String) (buffer : Bytes)
    (res : Option Err) (hmem : Call.update key buffer res ∈ (Process env a).2) :
    ∃ known tr probed tr1 d', discover env a = (.ok known, tr) ∧
      probeLoop env (env.rangeOrder tr (entries known)) tr = (.ok probed, tr1) ∧
      (key, d') ∈ env.rangeOrder tr1 (entries (known.map (fun _ => probed))) ∧
      env.serialise d' = .ok buffer := by
  cases hd : discover env a with
  | mk o tr =>
    have hdt := (discover_trace env a).2
    rw [hd] at hdt
    simp only at hdt
    cases o with
    | ok known =>
      have hno := no_update_before_save env a _ tr (env.rangeOrder tr (entries known)) hd
        key buffer res
      cases hp : probeLoop env (env.rangeOrder tr (entries known)) tr with
      | mk o1 tr1 =>
        rw [hp] at hno
        simp only at hno
        cases o1 with
        | ok probed =>
          rw [Process_of_probed env a known tr probed tr1 hd hp] at hmem
          rcases updateLoop_calls env _ tr1 _ hmem with h1 | ⟨k, d', b, r, hm, hser, hc⟩
          · exact absurd h1 hno
          · simp only [Call.update.injEq] at hc
            obtain ⟨hk, hb, -⟩ := hc
            subst hk
            subst hb
            exact ⟨known, tr, probed, tr1, d', rfl, hp, hm, hser⟩
        | fatal =>
          obtain ⟨h2, -⟩ := Process_of_probe_stopped env a known tr _ tr1 hd hp
            (fun _ h => by cases h)
          rw [h2] at hmem
          exact absurd hmem hno
        | panicked =>
          obtain ⟨h2, -⟩ := Process_of_probe_stopped env a known tr _ tr1 hd hp
            (fun _ h => by cases h)
          rw [h2] at hmem
          exact absurd hmem hno
    | fatal =>
      obtain ⟨h2, -⟩ := Process_of_discover_stopped env a _ tr hd (fun _ h => by cases h)
      rw [h2] at hmem
      have := mem_updatedKeys _ _ _ _ hmem
      rw [hdt] at this
      cases this
    | panicked =>
      obtain ⟨h2, -⟩ := Process_of_discover_stopped env a _ tr hd (fun _ h => by cases h)
      rw [h2] at hmem
      have := mem_updatedKeys _ _ _ _ hmem
      rw [hdt] at this
      cases this

/-! ## Failures of the load -/

/-- The error that `loadDevices` returns after a successful `Query` is the one
of the outer `json.Unmarshal`, whatever `Deserialise` returns for the
records. -/
theorem loadDevices_error (env : Env) (a : Application) (tr : Trace) (resp : Bytes)
    (hq : env.query tr "applicationUUID" a.Name = .ok resp) :
    (loadDevices env a tr).1.2 = (env.unmarshal resp).2 ∧
    ∃ l, (loadDevices env a tr).1.1 = some l := by
  unfold loadDevices
  simp [hq]

/-- After a failed `Query`, a pass in which the radio sees a device does not
return: the first visible device is unknown to the nil map, and the pass ends
in `log.Fatal` if `createDevice` fails, in a panic if it succeeds. -/
theorem Process_of_failed_query (env : Env) (a : Application) (e : Err) (id : String)
    (rest : List String)
    (hq : env.query [] "applicationUUID" a.Name = .error e)
    (hscan : env.scan [.query "applicationUUID" a.Name (.error e)] a.Name 10 =
      .ok (id :: rest)) :
    (Process env a).1 = .fatal ∨ (Process env a).1 = .panicked := by
  have hl : loadDevices env a [] =
      ((none, some e), [.query "applicationUUID" a.Name (.error e)]) := by
    unfold loadDevices
    simp only [hq, List.nil_append]
  have hd : discover env a = provisionLoop env a (id :: rest) none
      ([.query "applicationUUID" a.Name (.error e)] ++ [.scan a.Name 10 (.ok (id :: rest))]) :=
    discover_of_loaded env a none (some e) _ (id :: rest) hl hscan
  have hex : deviceExists none id = false := rfl
  simp only [provisionLoop, hex] at hd
  unfold Process
  rw [hd]
  cases hcd : createDevice env a id ([.query "applicationUUID" a.Name (.error e)] ++
      [.scan a.Name 10 (.ok (id :: rest))] ++ [.createDevice id]) with
  | mk r t =>
    cases r with
    | error e0 => exact Or.inl (by simp)
    | ok dk => exact Or.inr (by simp)

/-! ## proxyvisor.handleResp -/

/-- C10. `handleResp` returns nil exactly when the incoming error list is nil
and the status code of the response is 200; a non-nil error list is returned
unchanged whatever the response is (nil pointer included); with a nil error
list, a status other than 200 yields a list of one error. -/
theorem handleResp_classification (resp : Option Response) (errs : Option (List Err))
    (es : List Err) (r : Response) :
    (handleResp resp errs = .ok none ↔
      errs = none ∧ ∃ r0, resp = some r0 ∧ r0.StatusCode = 200) ∧
    handleResp resp (some es) = .ok (some es) ∧
    handleResp (some r) none =
      (if r.StatusCode = 200 then .ok none
       else .ok (some ["invalid response received: " ++ r.Status])) := by
  refine ⟨?_, rfl, ?_⟩
  · cases errs with
    | some l => simp [handleResp]
    | none =>
      cases resp with
      | none => simp [handleResp]
      | some r0 =>
        by_cases h : r0.StatusCode = 200 <;> simp [handleResp, h]
  · by_cases h : r.StatusCode = 200 <;> simp [handleResp, h]

/-! ## createDevice -/

/-- C6. When provisioning returns `R`, `createDevice` builds the record with
`LocalUUID` the local identifier, `ApplicationUUID` the name of the
application, `ResinUUID` `R`, empty `Commit`, state ONLINE, progress 0 and
`LastSeen` the time read after provisioning; when that record serialises to
`b` and the store inserts `b` under key bytes `K`, it returns exactly that
record with the key `string(K)`, and the one `Insert` made carries `b`. -/
theorem createDevice_record (env : Env) (a : Application) (L : String) (tr : Trace)
    (R : String) (hprov : env.provision tr = .ok R) :
    ∃ d : Device,
      d.LocalUUID = L ∧ d.ApplicationUUID = a.Name ∧ d.ResinUUID = R ∧ d.Commit = "" ∧
      d.State = .ONLINE ∧ d.Progress = 0 ∧
      d.LastSeen = env.now (tr ++ [.provision (.ok R)]) ∧
      ∀ b K, env.serialiseDevice d = .ok b →
        env.insert (tr ++ [.provision (.ok R), .now d.LastSeen]) b = .ok K →
        createDevice env a L tr =
          (.ok (d, bytesToString K),
            tr ++ [.provision (.ok R), .now d.LastSeen, .insert b (.ok K)]) := by
  refine ⟨{ env.create a.Device with
      LocalUUID := L, ApplicationUUID := a.Name, ResinUUID := R, Commit := "",
      LastSeen := env.now (tr ++ [.provision (.ok R)]), State := .ONLINE, Progress := 0,
      Radio := some a.Radio }, rfl, rfl, rfl, rfl, rfl, rfl, rfl, ?_⟩
  intro b K hser hins
  simp only [List.append_assoc, List.singleton_append] at hins
  simp [createDevice, hprov, hser, hins]

/-- The record creation at work: the first sight of AA:BB. -/
theorem createDevice_record_witness :
    (simpleEnv [] ["AA:BB"] ["AA:BB"]).provision [] = .ok "r-1" ∧
    ∃ d : Device,
      d.LocalUUID = "AA:BB" ∧ d.ApplicationUUID = app0.Name ∧ d.ResinUUID = "r-1" ∧
      d.Commit = "" ∧ d.State = .ONLINE ∧ d.Progress = 0 ∧
      d.LastSeen = (simpleEnv [] ["AA:BB"] ["AA:BB"]).now ([] ++ [.provision (.ok "r-1")]) ∧
      ∀ b K, (simpleEnv [] ["AA:BB"] ["AA:BB"]).serialiseDevice d = .ok b →
        (simpleEnv [] ["AA:BB"] ["AA:BB"]).insert
          ([] ++ [.provision (.ok "r-1"), .now d.LastSeen]) b = .ok K →
        createDevice (simpleEnv [] ["AA:BB"] ["AA:BB"]) app0 "AA:BB" [] =
          (.ok (d, bytesToString K),
            [] ++ [.provision (.ok "r-1"), .now d.LastSeen, .insert b (.ok K)]) :=
  ⟨rfl, createDevice_record (simpleEnv [] ["AA:BB"] ["AA:BB"]) app0 "AA:BB" [] "r-1" rfl⟩

/-! ## The pass -/

/-- C1. Liveness mapping. Let `known` be the known set at the probe stage.
When `Process` returns, every device of `known` has its record, under the same
key, in the set handed to the save stage: if its `Online` call returned true
the record is the device with state ONLINE and `LastSeen` the time read right
after that call, if it returned false the record is the device with state
OFFLINE and `LastSeen` as before. And every `Update` made by the pass carries
the serialisation of such a record of a device of `known`, under its key.
The `Online` call of a device is the one made after the history `h`: `h`
followed by the call and its answer begins the trace of the pass. -/
theorem liveness_mapping (env : Env) (a : Application) (known : GoMap) (tr : Trace)
    (hperm : ∀ h l, (env.rangeOrder h l).Perm l)
    (hd : discover env a = (.ok known, tr)) :
    (∀ r, (Process env a).1 = .ok r → ∀ key d, (key, d) ∈ entries known →
      ∃ (d' : Device) (h : Trace), (key, d') ∈ entries r.2 ∧
        (((h ++ [.online d.LocalUUID 10 (.ok true)]) <+: (Process env a).2 ∧
          env.online h d.LocalUUID 10 = .ok true ∧
          d' = { d with State := .ONLINE,
                        LastSeen := env.now (h ++ [.online d.LocalUUID 10 (.ok true)]) }) ∨
         ((h ++ [.online d.LocalUUID 10 (.ok false)]) <+: (Process env a).2 ∧
          env.online h d.LocalUUID 10 = .ok false ∧
          d' = { d with State := .OFFLINE }))) ∧
    (∀ key buffer res, Call.update key buffer res ∈ (Process env a).2 →
      ∃ (d d' : Device) (h : Trace), (key, d) ∈ entries known ∧
        env.serialise d' = .ok buffer ∧
        (((h ++ [.online d.LocalUUID 10 (.ok true)]) <+: (Process env a).2 ∧
          env.online h d.LocalUUID 10 = .ok true ∧
          d' = { d with State := .ONLINE,
                        LastSeen := env.now (h ++ [.online d.LocalUUID 10 (.ok true)]) }) ∨
         ((h ++ [.online d.LocalUUID 10 (.ok false)]) <+: (Process env a).2 ∧
          env.online h d.LocalUUID 10 = .ok false ∧
          d' = { d with State := .OFFLINE }))) := by
  cases hp : probeLoop env (env.rangeOrder tr (entries known)) tr with
  | mk o tr1 =>
    cases o with
    | ok probed =>
      have hrel := probeLoop_rel env _ tr probed tr1 hp
      have hpre := probed_prefix_Process env a known tr probed tr1 hd hp
      have hP := Process_of_probed env a known tr probed tr1 hd hp
      refine ⟨?_, ?_⟩
      · intro r hr key d hmem
        rw [hP] at hr
        simp only [Outcome.ok.injEq] at hr
        subst hr
        cases known with
        | none => simp [entries] at hmem
        | some l =>
          have hmem' : (key, d) ∈ env.rangeOrder tr (entries (some l)) :=
            ((hperm tr _).mem_iff).mpr hmem
          obtain ⟨e', he', hk, h, hlive⟩ := forall₂_left hrel _ hmem'
          obtain ⟨k', d'⟩ := e'
          simp only at hk
          subst hk
          refine ⟨d', h, by simpa [entries] using he', ?_⟩
          rcases hlive with ⟨h1, h2, h3⟩ | ⟨h1, h2, h3⟩
          · exact Or.inl ⟨h1.trans hpre, h2, h3⟩
          · exact Or.inr ⟨h1.trans hpre, h2, h3⟩
      · intro key buffer res hmem
        rw [hP] at hmem
        rcases updateLoop_calls env _ tr1 _ hmem with h1 | ⟨k, d', b, r, hm, hser, hc⟩
        · have := no_update_before_save env a _ tr (env.rangeOrder tr (entries known)) hd
            key buffer res
          rw [hp] at this
          exact absurd h1 this
        · simp only [Call.update.injEq] at hc
          obtain ⟨hk, hb, -⟩ := hc
          subst hk
          subst hb
          have hm1 := ((hperm _ _).mem_iff).mp hm
          obtain ⟨hm2, l, hl⟩ := mem_entries_map known probed _ hm1
          obtain ⟨e, he, hk, h, hlive⟩ := forall₂_right hrel _ hm2
          obtain ⟨k0, d⟩ := e
          simp only at hk
          subst hk
          refine ⟨d, d', h, ((hperm _ _).mem_iff).mp he, hser, ?_⟩
          rcases hlive with ⟨h1, h2, h3⟩ | ⟨h1, h2, h3⟩
          · exact Or.inl ⟨h1.trans hpre, h2, h3⟩
          · exact Or.inr ⟨h1.trans hpre, h2, h3⟩
    | fatal =>
      obtain ⟨h2, h1⟩ := Process_of_probe_stopped env a known tr _ tr1 hd hp (fun _ h => by cases h)
      refine ⟨fun r hr => absurd hr (h1 r), ?_⟩
      intro key buffer res hmem
      rw [h2] at hmem
      have := no_update_before_save env a _ tr (env.rangeOrder tr (entries known)) hd
        key buffer res
      rw [hp] at this
      exact absurd hmem this
    | panicked =>
      obtain ⟨h2, h1⟩ := Process_of_probe_stopped env a known tr _ tr1 hd hp (fun _ h => by cases h)
      refine ⟨fun r hr => absurd hr (h1 r), ?_⟩
      intro key buffer res hmem
      rw [h2] at hmem
      have := no_update_before_save env a _ tr (env.rangeOrder tr (entries known)) hd
        key buffer res
      rw [hp] at this
      exact absurd hmem this

/-- The liveness mapping at work: the stored device AA:BB answers, and the
record saved under k1 is the stored one made ONLINE. -/
theorem liveness_mapping_witness :
    (∀ h l, (onlineEnv.rangeOrder h l).Perm l) ∧
    discover onlineEnv app0 =
      (.ok (some [("k1", storedDevice)]),
        [.query "applicationUUID" "app" (.ok "resp"), .scan "app" 10 (.ok ["AA:BB"])]) ∧
    ∃ (d d' : Device) (h : Trace), ("k1", d) ∈ entries (some [("k1", storedDevice)]) ∧
      onlineEnv.serialise d' = .ok "AA:BB/r-0+" ∧
      (((h ++ [.online d.LocalUUID 10 (.ok true)]) <+: (Process onlineEnv app0).2 ∧
        onlineEnv.online h d.LocalUUID 10 = .ok true ∧
        d' = { d with State := .ONLINE,
                      LastSeen := onlineEnv.now (h ++ [.online d.LocalUUID 10 (.ok true)]) }) ∨
       ((h ++ [.online d.LocalUUID 10 (.ok false)]) <+: (Process onlineEnv app0).2 ∧
        onlineEnv.online h d.LocalUUID 10 = .ok false ∧
        d' = { d with State := .OFFLINE })) :=
  ⟨fun _ l => List.reverse_perm l, rfl,
    (liveness_mapping onlineEnv app0 _ _ (fun _ l => List.reverse_perm l) rfl).2
      "k1" "AA:BB/r-0+" none (by decide)⟩

/-- C3 as stated fails: the scan fails, and `Process` does not return an
error to its caller (it does not return at all). -/
theorem scan_failure_returns_nothing :
    scanFailEnv.scan (loadDevices scanFailEnv app0 []).2 app0.Name 10 =
      .error "transport unavailable" ∧
    ¬ ∃ err m, (Process scanFailEnv app0).1 = .ok (some err, m) := by
  refine ⟨rfl, ?_⟩
  rintro ⟨err, m, h⟩
  have h1 : (Process scanFailEnv app0).1 = .fatal := rfl
  rw [h1] at h
  cases h

/-- C3, amended. Whenever `Radio.Scan` returns an error, `Process` does not
return: the process is ended by `log.Fatal`. The only calls made are the
`Query` of the load and the scan, so no `Insert` and no `Update` has been
made on the store. -/
theorem scan_failure_is_fatal (env : Env) (a : Application) (e : Err)
    (hscan : env.scan (loadDevices env a []).2 a.Name 10 = .error e) :
    (Process env a).1 = .fatal ∧
    (Process env a).2 = (loadDevices env a []).2 ++ [.scan a.Name 10 (.error e)] ∧
    ∀ c ∈ (Process env a).2, c.isWrite = false := by
  obtain ⟨r, hr⟩ := loadDevices_trace env a
  have hd : discover env a = (.fatal, (loadDevices env a []).2 ++ [.scan a.Name 10 (.error e)]) := by
    unfold discover
    cases hl : loadDevices env a [] with
    | mk me tr0 =>
      rw [hl] at hscan
      simp only at hscan
      simp only [hscan]
  have h1 : Process env a = (.fatal, (loadDevices env a []).2 ++ [.scan a.Name 10 (.error e)]) := by
    unfold Process
    rw [hd]
  rw [h1, hr]
  refine ⟨rfl, rfl, ?_⟩
  intro c hc
  simp only [List.singleton_append, List.mem_cons, List.mem_singleton, List.not_mem_nil,
    or_false] at hc
  rcases hc with hc | hc <;> subst hc <;> rfl

/-- The fatal scan at work, on the environment whose radio fails to scan. -/
theorem scan_failure_is_fatal_witness :
    scanFailEnv.scan (loadDevices scanFailEnv app0 []).2 app0.Name 10 =
      .error "transport unavailable" ∧
    (Process scanFailEnv app0).1 = .fatal ∧
    (Process scanFailEnv app0).2 =
      (loadDevices scanFailEnv app0 []).2 ++ [.scan app0.Name 10 (.error "transport unavailable")] ∧
    ∀ c ∈ (Process scanFailEnv app0).2, c.isWrite = false :=
  ⟨rfl, scan_failure_is_fatal scanFailEnv app0 "transport unavailable" rfl⟩

/-- C4 on a failing input: two devices are stored and the store refuses every
`Update`. The first save fails and the second device is not saved, but
`Process` returns nil: the error of `updateDevices` is dropped. -/
theorem persist_error_is_dropped :
    Process updateFailEnv app0 =
      (.ok (none, some [("k2", ⟨"CC:DD", "app", "r-0", "", .OFFLINE, 0, 0, some 7⟩),
                        ("k1", ⟨"AA:BB", "app", "r-0", "", .ONLINE, 0, 4, some 7⟩)]),
        [.query "applicationUUID" "app" (.ok "resp"), .scan "app" 10 (.ok ["AA:BB"]),
         .online "CC:DD" 10 (.ok false), .online "AA:BB" 10 (.ok true), .now 4,
         .update "k1" "AA:BB/r-0+" (some "store is read-only")]) ∧
    (updateDevices updateFailEnv
      (some [("k2", ⟨"CC:DD", "app", "r-0", "", .OFFLINE, 0, 0, some 7⟩),
             ("k1", ⟨"AA:BB", "app", "r-0", "", .ONLINE, 0, 4, some 7⟩)]) []).1 =
      some "store is read-only" := by
  decide

/-- C5 on a failing input: the `Query` of the load fails and AA:BB is visible.
The device is provisioned and inserted, then the assignment into the nil map
panics: no probe and no save is made. With a store that answers and holds
nothing, the same pass provisions, probes and saves AA:BB, and returns. -/
theorem load_failure_panics :
    Process queryFailEnv app0 =
      (.panicked,
        [.query "applicationUUID" "app" (.error "store unavailable"),
         .scan "app" 10 (.ok ["AA:BB"]), .createDevice "AA:BB", .provision (.ok "r-1"),
         .now 4, .insert "AA:BB/r-1" (.ok "kkkkk")]) ∧
    Process (simpleEnv [] ["AA:BB"] ["AA:BB"]) app0 =
      (.ok (none, some [("kkkkk", ⟨"AA:BB", "app", "r-1", "", .ONLINE, 0, 7, some 7⟩)]),
        [.query "applicationUUID" "app" (.ok "resp"),
         .scan "app" 10 (.ok ["AA:BB"]), .createDevice "AA:BB", .provision (.ok "r-1"),
         .now 4, .insert "AA:BB/r-1" (.ok "kkkkk"), .online "AA:BB" 10 (.ok true), .now 7,
         .update "kkkkk" "AA:BB/r-1+" none]) := by
  constructor <;> decide

/-- C7 on a failing input: the record under k1 does not deserialise.
`loadDevices` returns a nil error, and a set in which k1 is a device with
every field at its zero value but `Radio`. -/
theorem load_accepts_corrupt_record :
    ((simpleEnv [("k1", ⟨"bad"⟩), ("k2", ⟨"EE"⟩)] [] []).deserialise "bad" blank).2 =
      some "unexpected end of JSON input" ∧
    loadDevices (simpleEnv [("k1", ⟨"bad"⟩), ("k2", ⟨"EE"⟩)] [] []) app0 [] =
      ((some [("k1", ⟨"", "", "", "", .OFFLINE, 0, 0, some 7⟩),
              ("k2", ⟨"EE", "app", "r-0", "", .OFFLINE, 0, 0, some 7⟩)], none),
        [.query "applicationUUID" "app" (.ok "resp")]) := by
  decide

/-- C2 as stated fails: AA:BB is loaded, the scan returns CC and DD, the store
makes no `Insert` (so the assumption on its keys holds), and the backend
refuses to provision. DD is visible and is not the `LocalUUID` of a loaded
device, yet `createDevice` is never called for DD: the failed `createDevice`
of CC ends the pass in `log.Fatal`. -/
theorem provision_stops_at_first_failure :
    loadDevices provisionFailEnv app0 [] =
      ((some [("k1", storedDevice)], none), [.query "applicationUUID" "app" (.ok "resp")]) ∧
    provisionFailEnv.scan [.query "applicationUUID" "app" (.ok "resp")] app0.Name 10 =
      .ok ["CC", "DD"] ∧
    (insertedKeys (Process provisionFailEnv app0).2).Nodup ∧
    (∀ k ∈ insertedKeys (Process provisionFailEnv app0).2,
      k ∉ [("k1", storedDevice)].map Prod.fst) ∧
    "DD" ∈ ["CC", "DD"] ∧
    "DD" ∉ [("k1", storedDevice)].map (fun e => e.2.LocalUUID) ∧
    "DD" ∉ createdIds (Process provisionFailEnv app0).2 ∧
    Process provisionFailEnv app0 =
      (.fatal,
        [.query "applicationUUID" "app" (.ok "resp"), .scan "app" 10 (.ok ["CC", "DD"]),
         .createDevice "CC", .provision (.error "backend unavailable")]) := by
  refine ⟨rfl, rfl, ?_, ?_, ?_, ?_, ?_, ?_⟩ <;> decide

/-- C2, amended. Provision at first sight only. Let `loaded` be the set loaded
and `ids` the scan result, and assume the keys that the store returns from the
`Insert` calls of the pass are pairwise distinct and are not keys of `loaded`.
Then no identifier is passed to `createDevice` twice; every identifier passed
to `createDevice` is in `ids` and is not the `LocalUUID` of a loaded device
(whatever the fields of that device); and, when the provisioning stage is not
ended by `log.Fatal` (no `createDevice` call fails), every identifier of `ids`
that is not the `LocalUUID` of a loaded device is passed to `createDevice`. -/
theorem provision_at_first_sight (env : Env) (a : Application)
    (loaded : List (String × Device)) (e : Option Err) (tr0 : Trace) (ids : List String)
    (hload : loadDevices env a [] = ((some loaded, e), tr0))
    (hscan : env.scan tr0 a.Name 10 = .ok ids)
    (hnd : (insertedKeys (Process env a).2).Nodup)
    (hfresh : ∀ k ∈ insertedKeys (Process env a).2, k ∉ loaded.map Prod.fst) :
    (createdIds (Process env a).2).Nodup ∧
    (∀ id ∈ createdIds (Process env a).2,
      id ∈ ids ∧ id ∉ loaded.map (fun e => e.2.LocalUUID)) ∧
    ((discover env a).1 ≠ .fatal →
      ∀ id ∈ ids, id ∉ loaded.map (fun e => e.2.LocalUUID) →
        id ∈ createdIds (Process env a).2) := by
  have hdisc := discover_of_loaded env a (some loaded) e tr0 ids hload hscan
  obtain ⟨s, hs, hcs, his⟩ := Process_after_discover env a
  obtain ⟨r, hr⟩ := loadDevices_trace env a
  rw [hload] at hr
  simp only at hr
  subst hr
  cases hrun : provisionLoop env a ids (some loaded)
      ([.query "applicationUUID" a.Name r] ++ [.scan a.Name 10 (.ok ids)]) with
  | mk out tr' =>
    rw [hrun] at hdisc
    rw [hdisc] at hs
    simp only at hs
    have hi : insertedKeys (Process env a).2 = insertedKeys tr' := by
      rw [hs, insertedKeys_append, his, List.append_nil]
    have hc : createdIds (Process env a).2 = createdIds tr' := by
      rw [hs, createdIds_append, hcs, List.append_nil]
    rw [hi] at hnd hfresh
    obtain ⟨cs, h1, h2, h3, h4, h5⟩ := provisionLoop_created env a (loaded.map Prod.fst) ids
      loaded _ out tr' hrun hnd hfresh (fun k hk => Or.inl hk)
    have h1' : createdIds tr' = cs := by
      rw [h1]
      rfl
    rw [hc, h1', hdisc]
    exact ⟨h2, h3, fun hout id hid hnew => h4 hout id hid hnew⟩

/-- Provisioning at first sight at work: AA:BB is stored; CC (seen twice) and
DD are new, and no `createDevice` fails. -/
theorem provision_at_first_sight_witness :
    loadDevices mixedEnv app0 [] =
      ((some [("k1", storedDevice)], none), [.query "applicationUUID" "app" (.ok "resp")]) ∧
    mixedEnv.scan [.query "applicationUUID" "app" (.ok "resp")] app0.Name 10 =
      .ok ["CC", "CC", "AA:BB", "DD"] ∧
    (insertedKeys (Process mixedEnv app0).2).Nodup ∧
    (∀ k ∈ insertedKeys (Process mixedEnv app0).2,
      k ∉ [("k1", storedDevice)].map Prod.fst) ∧
    (discover mixedEnv app0).1 ≠ .fatal ∧
    (createdIds (Process mixedEnv app0).2).Nodup ∧
    (∀ id ∈ createdIds (Process mixedEnv app0).2,
      id ∈ ["CC", "CC", "AA:BB", "DD"] ∧
        id ∉ [("k1", storedDevice)].map (fun e => e.2.LocalUUID)) ∧
    ((discover mixedEnv app0).1 ≠ .fatal →
      ∀ id ∈ ["CC", "CC", "AA:BB", "DD"],
        id ∉ [("k1", storedDevice)].map (fun e => e.2.LocalUUID) →
        id ∈ createdIds (Process mixedEnv app0).2) :=
  ⟨rfl, rfl, by decide, by decide, by decide,
    provision_at_first_sight mixedEnv app0 [("k1", storedDevice)] none
      [.query "applicationUUID" "app" (.ok "resp")] ["CC", "CC", "AA:BB", "DD"] rfl rfl
      (by decide) (by decide)⟩

/-- C8. Known devices are never dropped. Let `loaded` be the set loaded, and
assume that no call of a collaborator fails and that the store returns no key
of `loaded` from the `Insert` calls of the pass. Then `Process` returns nil
with a known set `known` such that: one `Online` call has been made per entry
of `known`, for its `LocalUUID`; the keys passed to `Update` are the keys of
`known`, once each; and every loaded entry still has its key in `known`, with
a device of the same `LocalUUID`, and `Update` has been called exactly once
for that key. -/
theorem known_devices_are_kept (env : Env) (a : Application)
    (loaded : List (String × Device)) (e : Option Err) (tr0 : Trace)
    (hload : loadDevices env a [] = ((some loaded, e), tr0))
    (hperm : ∀ h l, (env.rangeOrder h l).Perm l)
    (hscan : ∀ h n t, ∃ ids, env.scan h n t = .ok ids)
    (hprov : ∀ h, ∃ R, env.provision h = .ok R)
    (hserd : ∀ d, ∃ b, env.serialiseDevice d = .ok b)
    (hins : ∀ h b, ∃ k, env.insert h b = .ok k)
    (honl : ∀ h id t, ∃ b, env.online h id t = .ok b)
    (hser : ∀ d, ∃ b, env.serialise d = .ok b)
    (hupd : ∀ h k b, env.update h k b = none)
    (hfresh : ∀ k ∈ insertedKeys (Process env a).2, k ∉ loaded.map Prod.fst) :
    ∃ known, (Process env a).1 = .ok (none, some known) ∧
      probedIds (Process env a).2 = known.map (fun e => e.2.LocalUUID) ∧
      (updatedKeys (Process env a).2).Perm (known.map Prod.fst) ∧
      ∀ key d, (key, d) ∈ loaded →
        (∃ d', (key, d') ∈ known ∧ d'.LocalUUID = d.LocalUUID) ∧
        (updatedKeys (Process env a).2).count key = 1 := by
  obtain ⟨ids, hids⟩ := hscan tr0 a.Name 10
  have hdisc := discover_of_loaded env a (some loaded) e tr0 ids hload hids
  obtain ⟨s, hs, -, his⟩ := Process_after_discover env a
  obtain ⟨m', hm'⟩ := provisionLoop_ok env a ids loaded (tr0 ++ [.scan a.Name 10 (.ok ids)])
    hprov hserd hins
  cases hrun : provisionLoop env a ids (some loaded) (tr0 ++ [.scan a.Name 10 (.ok ids)]) with
  | mk out tr =>
    rw [hrun] at hm' hdisc
    simp only at hm'
    subst hm'
    rw [hdisc] at hs
    simp only at hs
    have hi : insertedKeys (Process env a).2 = insertedKeys tr := by
      rw [hs, insertedKeys_append, his, List.append_nil]
    rw [hi] at hfresh
    obtain ⟨m'', hm'', hkeep, hnd⟩ := provisionLoop_keeps env a (loaded.map Prod.fst) ids
      loaded _ (some m') tr hrun hfresh
    simp only [Option.some.injEq] at hm''
    subst hm''
    have hndm : (m'.map Prod.fst).Nodup := hnd (loadDevices_nodup env a [] loaded e tr0 hload)
    obtain ⟨probed, hpr⟩ := probeLoop_ok env (env.rangeOrder tr (entries (some m'))) tr honl
    cases hp : probeLoop env (env.rangeOrder tr (entries (some m'))) tr with
    | mk o tr1 =>
      rw [hp] at hpr
      simp only at hpr
      subst hpr
      have hP := Process_of_probed env a (some m') tr probed tr1 hdisc hp
      simp only [Option.map_some'] at hP
      obtain ⟨hk, -, hpi⟩ := probeLoop_shape env _ tr probed tr1 hp
      have hrel := probeLoop_rel env _ tr probed tr1 hp
      obtain ⟨hdp, hdu⟩ := discover_trace env a
      rw [hdisc] at hdp hdu
      simp only at hdp hdu
      obtain ⟨s1, hs1, -, -, hu1⟩ := probeLoop_trace env (env.rangeOrder tr (entries (some m'))) tr
      rw [hp] at hs1
      simp only at hs1
      have hu_tr1 : updatedKeys tr1 = [] := by
        rw [hs1, updatedKeys_append, hdu, hu1]
        rfl
      obtain ⟨s2, hs2, -, -, hp2⟩ :=
        updateLoop_trace env (env.rangeOrder tr1 (entries (some probed))) tr1
      have hprobed : probedIds (Process env a).2 = probed.map (fun e => e.2.LocalUUID) := by
        rw [hP]
        simp only [updateDevices]
        rw [hs2, probedIds_append, hp2, hpi, hdp, List.append_nil, List.nil_append]
        have := (probeLoop_shape env _ tr probed tr1 hp).2.1
        exact this.symm
      have hupdated : updatedKeys (Process env a).2 =
          (env.rangeOrder tr1 (entries (some probed))).map Prod.fst := by
        rw [hP]
        simp only [updateDevices]
        rw [updateLoop_ok env _ tr1 hser hupd, hu_tr1, List.nil_append]
      have hpermU : (updatedKeys (Process env a).2).Perm (probed.map Prod.fst) := by
        rw [hupdated]
        exact (hperm _ _).map _
      have hpermK : (probed.map Prod.fst).Perm (m'.map Prod.fst) := by
        rw [hk]
        exact (hperm _ _).map _
      refine ⟨probed, by rw [hP], hprobed, hpermU, ?_⟩
      intro key d hmem
      have hm1 : (key, d) ∈ m' := hkeep _ hmem (List.mem_map_of_mem Prod.fst hmem)
      have hm2 : (key, d) ∈ env.rangeOrder tr (entries (some m')) :=
        ((hperm tr _).mem_iff).mpr hm1
      obtain ⟨e', he', hk', h, hlive⟩ := forall₂_left hrel _ hm2
      obtain ⟨k0, d'⟩ := e'
      simp only at hk' hlive
      subst hk'
      refine ⟨⟨d', he', ?_⟩, ?_⟩
      · rcases hlive with ⟨-, -, h0⟩ | ⟨-, -, h0⟩ <;> rw [h0]
      · rw [(hpermU.trans hpermK).count_eq]
        exact List.count_eq_one_of_mem hndm (List.mem_map_of_mem Prod.fst hm1)

/-- The known set at work: the stored AA:BB does not answer, CC and DD are
new. -/
theorem known_devices_are_kept_witness :
    loadDevices mixedEnv app0 [] =
      ((some [("k1", storedDevice)], none), [.query "applicationUUID" "app" (.ok "resp")]) ∧
    (∀ h l, (mixedEnv.rangeOrder h l).Perm l) ∧
    (∀ h n t, ∃ ids, mixedEnv.scan h n t = .ok ids) ∧
    (∀ h, ∃ R, mixedEnv.provision h = .ok R) ∧
    (∀ d, ∃ b, mixedEnv.serialiseDevice d = .ok b) ∧
    (∀ h b, ∃ k, mixedEnv.insert h b = .ok k) ∧
    (∀ h id t, ∃ b, mixedEnv.online h id t = .ok b) ∧
    (∀ d, ∃ b, mixedEnv.serialise d = .ok b) ∧
    (∀ h k b, mixedEnv.update h k b = none) ∧
    (∀ k ∈ insertedKeys (Process mixedEnv app0).2,
      k ∉ [("k1", storedDevice)].map Prod.fst) ∧
    ∃ known, (Process mixedEnv app0).1 = .ok (none, some known) ∧
      probedIds (Process mixedEnv app0).2 = known.map (fun e => e.2.LocalUUID) ∧
      (updatedKeys (Process mixedEnv app0).2).Perm (known.map Prod.fst) ∧
      ∀ key d, (key, d) ∈ [("k1", storedDevice)] →
        (∃ d', (key, d') ∈ known ∧ d'.LocalUUID = d.LocalUUID) ∧
        (updatedKeys (Process mixedEnv app0).2).count key = 1 :=
  ⟨rfl, fun _ l => List.reverse_perm l, fun _ _ _ => ⟨_, rfl⟩, fun _ => ⟨_, rfl⟩,
    fun _ => ⟨_, rfl⟩, fun _ _ => ⟨_, rfl⟩, fun _ _ _ => ⟨_, rfl⟩, fun _ => ⟨_, rfl⟩,
    fun _ _ _ => rfl, by decide,
    known_devices_are_kept mixedEnv app0 [("k1", storedDevice)] none
      [.query "applicationUUID" "app" (.ok "resp")] rfl (fun _ l => List.reverse_perm l)
      (fun _ _ _ => ⟨_, rfl⟩) (fun _ => ⟨_, rfl⟩) (fun _ => ⟨_, rfl⟩) (fun _ _ => ⟨_, rfl⟩)
      (fun _ _ _ => ⟨_, rfl⟩) (fun _ => ⟨_, rfl⟩) (fun _ _ _ => rfl) (by decide)⟩

/-- C9 as stated fails: AA:BB is loaded under key k1 with `ResinUUID` r-0, CC
is new, and the store returns the key k1 from the `Insert` of CC. The new
device takes the place of the loaded one in the map (line 75), and the only
`Update` of the pass, made under k1, carries the record of CC: no record with
the `LocalUUID` and the `ResinUUID` of the loaded device serialises to it. -/
theorem reissued_key_replaces_loaded_record :
    loadDevices reissueEnv app0 [] =
      ((some [("k1", storedDevice)], none), [.query "applicationUUID" "app" (.ok "resp")]) ∧
    Process reissueEnv app0 =
      (.ok (none, some [("k1", ⟨"CC", "app", "r-1", "", .ONLINE, 0, 7, some 7⟩)]),
        [.query "applicationUUID" "app" (.ok "resp"), .scan "app" 10 (.ok ["CC"]),
         .createDevice "CC", .provision (.ok "r-1"), .now 4, .insert "CC/r-1" (.ok "k1"),
         .online "CC" 10 (.ok true), .now 7, .update "k1" "CC/r-1+" none]) ∧
    ¬ ∃ d' : Device, reissueEnv.serialise d' = .ok "CC/r-1+" ∧
        d'.LocalUUID = storedDevice.LocalUUID ∧ d'.ResinUUID = storedDevice.ResinUUID := by
  refine ⟨by decide, by decide, ?_⟩
  rintro ⟨d', hser, hl, hr⟩
  have h : reissueEnv.serialise d' =
      .ok (d'.LocalUUID ++ "/" ++ d'.ResinUUID ++ (if d'.State = .ONLINE then "+" else "-")) :=
    rfl
  rw [h, hl, hr] at hser
  cases hst : d'.State <;> rw [hst] at hser <;> revert hser <;> decide

/-- C9, amended. A pass modifies only liveness fields of existing records.
Let `loaded` be the set loaded. For every loaded device whose key the store
does not hand out again from an `Insert` of the pass, the record that
`Process` passes to `Update` under its key has the same `LocalUUID`,
`ResinUUID`, `ApplicationUUID`, `Commit`, `Progress` and `Radio` as the loaded
one; its `LastSeen` differs only if an `Online` call of the pass for the
`LocalUUID` of the device returned true. -/
theorem pass_changes_only_liveness (env : Env) (a : Application)
    (loaded : List (String × Device)) (e : Option Err) (tr0 : Trace)
    (hload : loadDevices env a [] = ((some loaded, e), tr0))
    (hperm : ∀ h l, (env.rangeOrder h l).Perm l) :
    ∀ key d, (key, d) ∈ loaded → key ∉ insertedKeys (Process env a).2 →
      ∀ buffer res, Call.update key buffer res ∈ (Process env a).2 →
        ∃ d' : Device, env.serialise d' = .ok buffer ∧
          d'.LocalUUID = d.LocalUUID ∧ d'.ResinUUID = d.ResinUUID ∧
          d'.ApplicationUUID = d.ApplicationUUID ∧ d'.Commit = d.Commit ∧
          d'.Progress = d.Progress ∧ d'.Radio = d.Radio ∧
          (d'.LastSeen ≠ d.LastSeen →
            Call.online d.LocalUUID 10 (.ok true) ∈ (Process env a).2) := by
  intro key d hmem hfresh buffer res hupd
  obtain ⟨known, tr, probed, tr1, d', hd, hp, hm, hser⟩ :=
    update_of_Process env a key buffer res hupd
  obtain ⟨s, hs, -, his⟩ := Process_after_discover env a
  rw [hd] at hs
  simp only at hs
  have hi : insertedKeys (Process env a).2 = insertedKeys tr := by
    rw [hs, insertedKeys_append, his, List.append_nil]
  rw [hi] at hfresh
  have hrun : ∃ ids tr2, provisionLoop env a ids (some loaded) tr2 = (.ok known, tr) := by
    unfold discover at hd
    rw [hload] at hd
    simp only at hd
    cases hsc : env.scan tr0 a.Name 10 with
    | error e0 => simp [hsc] at hd
    | ok ids =>
      simp only [hsc] at hd
      exact ⟨ids, _, hd⟩
  obtain ⟨ids, tr2, hrun⟩ := hrun
  obtain ⟨m', hm', hkeep, hnd⟩ := provisionLoop_keeps env a [key] ids
    loaded tr2 known tr hrun
    (fun k hk hk' => hfresh (by rw [List.mem_singleton] at hk'; exact hk' ▸ hk))
  subst hm'
  have hndm : (m'.map Prod.fst).Nodup := hnd (loadDevices_nodup env a [] loaded e tr0 hload)
  have hrel := probeLoop_rel env _ tr probed tr1 hp
  have hm1 : (key, d') ∈ probed := by
    have := ((hperm _ _).mem_iff).mp hm
    simpa [entries] using this
  obtain ⟨e0, he0, hk0, h, hlive⟩ := forall₂_right hrel _ hm1
  obtain ⟨k0, d0⟩ := e0
  simp only at hk0 hlive
  subst hk0
  have hm2 : (key, d0) ∈ m' := by
    have := ((hperm _ _).mem_iff).mp he0
    simpa [entries] using this
  have hm3 : (key, d) ∈ m' := hkeep _ hmem (List.mem_singleton_self _)
  have heq : (key, d0) = (key, d) := List.inj_on_of_nodup_map hndm hm2 hm3 rfl
  simp only [Prod.mk.injEq, true_and] at heq
  subst heq
  refine ⟨d', hser, ?_⟩
  have hpre := probed_prefix_Process env a (some m') tr probed tr1 hd hp
  rcases hlive with ⟨h1, -, h0⟩ | ⟨-, -, h0⟩
  · rw [h0]
    exact ⟨rfl, rfl, rfl, rfl, rfl, rfl,
      fun _ => (h1.trans hpre).mem (List.mem_append_right _ (List.mem_singleton_self _))⟩
  · rw [h0]
    exact ⟨rfl, rfl, rfl, rfl, rfl, rfl, fun hne => absurd rfl hne⟩

/-- The frame of a pass at work: the stored AA:BB among new devices. -/
theorem pass_changes_only_liveness_witness :
    loadDevices mixedEnv app0 [] =
      ((some [("k1", storedDevice)], none), [.query "applicationUUID" "app" (.ok "resp")]) ∧
    (∀ h l, (mixedEnv.rangeOrder h l).Perm l) ∧
    ("k1", storedDevice) ∈ [("k1", storedDevice)] ∧
    "k1" ∉ insertedKeys (Process mixedEnv app0).2 ∧
    Call.update "k1" "AA:BB/r-0-" none ∈ (Process mixedEnv app0).2 ∧
    ∃ d' : Device, mixedEnv.serialise d' = .ok "AA:BB/r-0-" ∧
      d'.LocalUUID = storedDevice.LocalUUID ∧ d'.ResinUUID = storedDevice.ResinUUID ∧
      d'.ApplicationUUID = storedDevice.ApplicationUUID ∧ d'.Commit = storedDevice.Commit ∧
      d'.Progress = storedDevice.Progress ∧ d'.Radio = storedDevice.Radio ∧
      (d'.LastSeen ≠ storedDevice.LastSeen →
        Call.online storedDevice.LocalUUID 10 (.ok true) ∈ (Process mixedEnv app0).2) :=
  ⟨rfl, fun _ l => List.reverse_perm l, by decide, by decide, by decide,
    pass_changes_only_liveness mixedEnv app0 [("k1", storedDevice)] none
      [.query "applicationUUID" "app" (.ok "resp")] rfl (fun _ l => List.reverse_perm l)
      "k1" storedDevice (by decide) (by decide) "AA:BB/r-0-" none (by decide)⟩

end EdgeNodeManager
